import Mathlib

/-!
Shallow embedding of the QTPFS path-search core
(src/rts/Sim/Path/QTPFS/PathSearch.cpp) of the Spring engine, together with
proofs settling the frozen claims about it.

Modelling conventions:
- float values are modelled as rationals; the float value
  QTPFS_POSITIVE_INFINITY is modelled by the value none of Option
  (so a possibly-infinite float is an Option of a rational, with
  none standing for positive infinity);
- the Euclidean point-to-point distance (float3::distance, whose source
  is not under src/) is abstracted as a parameter d of the search
  environment; every concrete instantiation in a witness or
  counterexample uses points for which the chosen d agrees with the
  Euclidean distance;
- types declared in headers that are not under src/ (INode, IPath,
  PathCache, binary_heap, float3) are modelled from the spec, as marked
  in the corresponding doc comments.
-/

namespace QTPFS

/-- Modelled from the spec: float3 is a triple of scalar world
coordinates (the source of float3 is not under src/). Floats are
modelled as rationals. -/
structure float3 where
  x : ℚ
  y : ℚ
  z : ℚ
deriving DecidableEq, Repr

/-- Modelled from the spec: squared Euclidean distance between two
points (float3::SqDistance, not under src/). -/
def float3.SqDistance (a b : float3) : ℚ :=
  (a.x - b.x) * (a.x - b.x) + (a.y - b.y) * (a.y - b.y) + (a.z - b.z) * (a.z - b.z)

/-- Modelled from the spec: SQUARE_SIZE is the engine-defined terrain
quantum (GlobalConstants.h is not under src/; the engine value is 8). -/
def SQUARE_SIZE : ℚ := 8

/-! ## GetHash (PathSearch.cpp line 534) -/

/-- Embedding of QTPFS::PathSearch::GetHash: the source returns
srcNode num + tgtNode num * N + k * N * N. N, k and the node numbers
are unsigned int, so the whole sum is computed in 32-bit unsigned
arithmetic and wraps modulo 2 to the 32 before the conversion to the
declared 64-bit result type (which does not widen the intermediate
arithmetic). -/
def GetHash (srcNodeNumber tgtNodeNumber N k : ℕ) : ℕ :=
  (srcNodeNumber + tgtNodeNumber * N + k * N * N) % 2 ^ 32

/-! ## Path and PathCache (modelled from the spec; Path.hpp and
PathCache.hpp are not under src/) -/

/-- Modelled from the spec: an IPath is an ordered sequence of world
points together with an id and an axis-aligned bounding rectangle. -/
structure IPath where
  pathID : ℕ
  points : List float3
  bboxMins : float3
  bboxMaxs : float3
deriving DecidableEq, Repr

def IPath.NumPoints (p : IPath) : ℕ := p.points.length

def IPath.GetPoint (p : IPath) (i : ℕ) : float3 :=
  p.points.getD i ⟨0, 0, 0⟩

def IPath.SetPoint (p : IPath) (i : ℕ) (pt : float3) : IPath :=
  { p with points := p.points.set i pt }

/-- Modelled from the spec: copyPoints overwrites the point list only. -/
def IPath.CopyPoints (p other : IPath) : IPath :=
  { p with points := other.points }

/-- Modelled from the spec: setSourcePoint writes the first waypoint. -/
def IPath.SetSourcePoint (p : IPath) (pt : float3) : IPath :=
  p.SetPoint 0 pt

/-- Modelled from the spec: setTargetPoint writes the last waypoint. -/
def IPath.SetTargetPoint (p : IPath) (pt : float3) : IPath :=
  p.SetPoint (p.points.length - 1) pt

def IPath.GetTargetPoint (p : IPath) : float3 :=
  p.GetPoint (p.points.length - 1)

/-- Modelled from the spec: componentwise minimum of two points, used
for the bounding-box fold. -/
def float3.cmin (a b : float3) : float3 :=
  ⟨min a.x b.x, min a.y b.y, min a.z b.z⟩

/-- Modelled from the spec: componentwise maximum of two points. -/
def float3.cmax (a b : float3) : float3 :=
  ⟨max a.x b.x, max a.y b.y, max a.z b.z⟩

/-- Modelled from the spec: the minimum corner of the bounding box of a
point list. -/
def bboxMinsOf (pts : List float3) : float3 :=
  pts.foldl float3.cmin ⟨(10 : ℚ) ^ 9, (10 : ℚ) ^ 9, (10 : ℚ) ^ 9⟩

/-- Modelled from the spec: the maximum corner of the bounding box of a
point list. -/
def bboxMaxsOf (pts : List float3) : float3 :=
  pts.foldl float3.cmax ⟨-((10 : ℚ) ^ 9), -((10 : ℚ) ^ 9), -((10 : ℚ) ^ 9)⟩

/-- Modelled from the spec: setBoundingBox recomputes the min and max
corners over all waypoints. -/
def IPath.SetBoundingBox (p : IPath) : IPath :=
  { p with bboxMins := bboxMinsOf p.points, bboxMaxs := bboxMaxsOf p.points }

/-- Modelled from the spec: the live cache stores finished paths. -/
structure PathCache where
  livePaths : List IPath
deriving DecidableEq, Repr

/-- Modelled from the spec: addLivePath installs a finished path in the
live cache. -/
def PathCache.AddLivePath (c : PathCache) (p : IPath) : PathCache :=
  { c with livePaths := c.livePaths ++ [p] }

/-! ## Possibly-infinite float scalars

Float values that can legitimately hold QTPFS_POSITIVE_INFINITY are
modelled as Option of a rational, none standing for positive infinity.
The arithmetic below mirrors IEEE float behaviour on the value range
the search actually exercises (all operands feeding an operation with a
none operand produce none; the search never multiplies infinity by
zero, every such product being guarded by an explicit infinity test in
the source). -/

/-- Reducible reimplementation of rational addition; the library
addition is irreducible, which blocks kernel evaluation of concrete
runs, while this clone evaluates and is proved equal to it. -/
def qadd (a b : ℚ) : ℚ :=
  Rat.normalize (a.num * b.den + b.num * a.den) (a.den * b.den)
    (Nat.mul_ne_zero a.den_nz b.den_nz)

theorem qadd_eq (a b : ℚ) : qadd a b = a + b := (Rat.add_def a b).symm

/-- Reducible reimplementation of rational multiplication, proved
equal to the library multiplication. -/
def qmul (a b : ℚ) : ℚ :=
  Rat.normalize (a.num * b.num) (a.den * b.den)
    (Nat.mul_ne_zero a.den_nz b.den_nz)

theorem qmul_eq (a b : ℚ) : qmul a b = a * b := (Rat.mul_def a b).symm

/-- Reducible reimplementation of rational subtraction, proved equal
to the library subtraction. -/
def qsub (a b : ℚ) : ℚ :=
  Rat.normalize (a.num * b.den - b.num * a.den) (a.den * b.den)
    (Nat.mul_ne_zero a.den_nz b.den_nz)

theorem qsub_eq (a b : ℚ) : qsub a b = a - b := (Rat.sub_def a b).symm

/-- Addition on possibly-infinite scalars; infinity absorbs. -/
def addC : Option ℚ → Option ℚ → Option ℚ
  | some a, some b => some (qadd a b)
  | _, _ => none

/-- Multiplication on possibly-infinite scalars; infinity absorbs. -/
def mulC : Option ℚ → Option ℚ → Option ℚ
  | some a, some b => some (qmul a b)
  | _, _ => none

/-- Strict comparison on possibly-infinite scalars: positive infinity
is the greatest value and is not below itself. -/
def ltC : Option ℚ → Option ℚ → Bool
  | some a, some b => decide (a < b)
  | some _, none => true
  | none, _ => false

/-! ## Node data (INode is declared in a header that is not under
src/; the fields below are modelled from the spec) -/

/-- Modelled from the spec: per-node static data of a quadtree cell,
namely the spatial extent with derived midpoint (in terrain-square
units) and the neighbour list, all stable during a search. Nodes are
identified by their index. -/
structure NodeStatic where
  xmin : ℕ
  zmin : ℕ
  xmax : ℕ
  zmax : ℕ
  xmid : ℕ
  zmid : ℕ
  neighbors : List ℕ
deriving DecidableEq, Repr

/-- Modelled from the spec: per-node search scratch written only by the
path search (search state, magic number, previous-node back-link and
the four path costs G, H, F, M). -/
structure NodeScratch where
  searchState : ℕ
  magicNumber : ℕ
  prevNode : Option ℕ
  gCost : Option ℚ
  hCost : Option ℚ
  fCost : Option ℚ
  mCost : Option ℚ
deriving DecidableEq, Repr

/-- Modelled from the spec: NODE_STATE_OPEN is the low search-state bit
for open nodes. -/
def NODE_STATE_OPEN : ℕ := 0

/-- Modelled from the spec: NODE_STATE_CLOSED is the low search-state
bit for closed nodes. -/
def NODE_STATE_CLOSED : ℕ := 1

/-- Search rectangle in terrain-square units (PathRectangle is declared
outside src/; modelled from the spec as an axis-aligned bound). -/
structure PathRectangle where
  x1 : ℕ
  z1 : ℕ
  x2 : ℕ
  z2 : ℕ
deriving DecidableEq, Repr

inductive SearchType where
  | PATH_SEARCH_ASTAR : SearchType
  | PATH_SEARCH_DIJKSTRA : SearchType
deriving DecidableEq, Repr

/-- Static environment of one search: the node layer (static node data
indexed by node number), the edge-transition-point function and the
point distance (both declared outside src/ and therefore abstract
here; the spec describes the distance as Euclidean), the search type
and the search rectangle. -/
structure SearchEnv where
  nodes : ℕ → NodeStatic
  etp : ℕ → ℕ → float3 → float3
  d : float3 → float3 → ℚ
  searchType : SearchType
  searchRect : PathRectangle

/-- Mutable state of QTPFS::PathSearch together with the mutable parts
of the node layer (move costs and scratch). The fields pops and
reopenedNodes are ghost observation logs used only to state temporal
claims: pops records every popped node with its f-cost at pop time,
reopenedNodes records every closed node pushed back with its newly
computed and its previously stored g-cost. -/
structure PathSearchState where
  moveCost : ℕ → Option ℚ
  scratch : ℕ → NodeScratch
  openList : List ℕ
  srcNode : ℕ
  tgtNode : ℕ
  curNode : Option ℕ
  nxtNode : Option ℕ
  minNode : ℕ
  srcPoint : float3
  tgtPoint : float3
  curPoint : float3
  nxtPoint : float3
  searchState : ℕ
  searchMagic : ℕ
  hCostMult : ℚ
  haveFullPath : Bool
  havePartPath : Bool
  pops : List (ℕ × Option ℚ)
  reopenedNodes : List (ℕ × Option ℚ × Option ℚ)

/-- Modelled from the spec: the binary heap of open nodes is abstracted
as the list of open node indices in insertion order; heapMin returns
the node attaining the minimum current f-cost, preferring the earliest
inserted on ties (the spec specifies a min-heap keyed by f-cost with
insertion-order tie-break). -/
def heapMin (f : ℕ → Option ℚ) : List ℕ → Option ℕ
  | [] => none
  | n :: rest =>
    match heapMin f rest with
    | none => some n
    | some m => if ltC (f m) (f n) then some m else some n

/-! ## UpdateNode (PathSearch.cpp line 129) -/

/-- Embedding of QTPFS::PathSearch::UpdateNode: stamps the scratch of
the given node with the open search state, the back-link and the four
path costs, the stored H being the supplied h times hCostMult and the
stored F being g plus that product. -/
def UpdateNode (st : PathSearchState) (nxt : ℕ) (cur : Option ℕ)
    (gCost hCost mCost : Option ℚ) : PathSearchState :=
  let ns : NodeScratch :=
    { searchState := st.searchState ||| NODE_STATE_OPEN
      magicNumber := (st.scratch nxt).magicNumber
      prevNode := cur
      gCost := gCost
      hCost := mulC hCost (some st.hCostMult)
      fCost := addC gCost (mulC hCost (some st.hCostMult))
      mCost := mCost }
  { st with scratch := Function.update st.scratch nxt ns }

/-! ## Iterate (PathSearch.cpp line 153) -/

/-- Embedding of the C++ conversion int(b) of a boolean to a scalar,
used for the isTarget gating terms. -/
def indQ (b : Prop) [Decidable b] : ℚ := if b then 1 else 0

/-- Embedding of the body of the neighbour loop of Iterate
(PathSearch.cpp lines 211 to 294), with the configuration fixed to the
default hWeight of 2 and on-demand edge-transition points. -/
def ExpandNeighbor (env : SearchEnv) (cur : ℕ) (st : PathSearchState)
    (nxt : ℕ) : PathSearchState :=
  let nxtPoint := env.etp cur nxt st.curPoint
  let st := { st with nxtNode := some nxt, nxtPoint := nxtPoint }
  if st.moveCost nxt = none then st
  else
    let isCurrent := st.searchState ≤ (st.scratch nxt).searchState
    let isClosed := (st.scratch nxt).searchState &&& 1 = NODE_STATE_CLOSED
    let isTarget := nxt = st.tgtNode
    let gDist := env.d st.curPoint nxtPoint
    let hDist := env.d nxtPoint st.tgtPoint
    let mCost := addC (addC ((st.scratch cur).mCost) (st.moveCost cur))
        (mulC (st.moveCost nxt) (some (indQ isTarget)))
    let gCost := addC (addC ((st.scratch cur).gCost) (mulC (st.moveCost cur) (some gDist)))
        (mulC (mulC (st.moveCost nxt) (some hDist)) (some (indQ isTarget)))
    let hCost : Option ℚ := some (qmul (qmul 2 hDist) (indQ (¬ isTarget)))
    if ¬ isCurrent then
      let st := UpdateNode st nxt (some cur) gCost hCost mCost
      { st with openList := st.openList ++ [nxt] }
    else if ¬ (ltC gCost ((st.scratch nxt).gCost) = true) then st
    else
      let st :=
        if isClosed then
          { st with openList := st.openList ++ [nxt],
                    reopenedNodes :=
                      st.reopenedNodes ++ [(nxt, gCost, (st.scratch nxt).gCost)] }
        else st
      UpdateNode st nxt (some cur) gCost hCost mCost

/-- Embedding of the expansion part of Iterate (PathSearch.cpp lines
176 to 294): skip blocked or out-of-rectangle nodes, perform the
minimum-h book-keeping, then expand all neighbours. -/
def IterateExpand (env : SearchEnv) (cur : ℕ) (st : PathSearchState) :
    PathSearchState :=
  if st.moveCost cur = none then st
  else if (env.nodes cur).xmid < env.searchRect.x1 then st
  else if (env.nodes cur).zmid < env.searchRect.z1 then st
  else if env.searchRect.x2 < (env.nodes cur).xmid then st
  else if env.searchRect.z2 < (env.nodes cur).zmid then st
  else
    let st :=
      if ltC ((st.scratch cur).hCost) ((st.scratch st.minNode).hCost) then
        { st with minNode := cur }
      else st
    (env.nodes cur).neighbors.foldl (ExpandNeighbor env cur) st

/-- Embedding of Iterate after the pop (PathSearch.cpp lines 172 to
294): early-out on the target node, refresh curPoint from the node we
came from, then expand. -/
def IteratePopped (env : SearchEnv) (cur : ℕ) (st : PathSearchState) :
    PathSearchState :=
  if cur = st.tgtNode then st
  else
    let st :=
      if cur ≠ st.srcNode then
        { st with curPoint :=
            match (st.scratch cur).prevNode with
            | some prv => env.etp cur prv st.curPoint
            | none => st.curPoint }
      else st
    IterateExpand env cur st

/-- Embedding of QTPFS::PathSearch::Iterate: pops the minimum-f node,
stamps it closed (and with the search magic number), then proceeds with
IteratePopped. -/
def Iterate (env : SearchEnv) (st : PathSearchState) : PathSearchState :=
  match heapMin (fun n => (st.scratch n).fCost) st.openList with
  | none => st
  | some cur =>
    let closedScratch : NodeScratch :=
      { st.scratch cur with
        searchState := st.searchState ||| NODE_STATE_CLOSED,
        magicNumber := st.searchMagic }
    let st := { st with
      curNode := some cur,
      scratch := Function.update st.scratch cur closedScratch,
      openList := st.openList.erase cur,
      pops := st.pops ++ [(cur, (st.scratch cur).fCost)] }
    IteratePopped env cur st

/-! ## Execute (PathSearch.cpp line 46) -/

/-- Embedding of the driver loop of Execute (PathSearch.cpp lines 90 to
104): while the open heap is non-empty, call Iterate and refresh the
haveFullPath and havePartPath flags, clearing the heap once the target
was reached. The fuel argument bounds the number of iterations; all
theorems hold for every fuel. -/
def SearchLoopStep (env : SearchEnv) (st : PathSearchState) : PathSearchState :=
  let st := Iterate env st
  let st := { st with
    haveFullPath := decide (st.curNode = some st.tgtNode),
    havePartPath := decide (st.minNode ≠ st.srcNode) }
  if st.haveFullPath then { st with openList := [] } else st

def SearchLoop (env : SearchEnv) : ℕ → PathSearchState → PathSearchState
  | 0, st => st
  | fuel + 1, st =>
    if st.openList.isEmpty then st
    else SearchLoop env fuel (SearchLoopStep env st)

/-- Embedding of the pre-loop part of Execute (PathSearch.cpp lines 69
to 88): select hCostMult from the search type, apply the blocked-source
escape hatch, reset and seed the open heap with the source node, and
stamp the source node. -/
def ExecuteSetup (env : SearchEnv) (st : PathSearchState) : PathSearchState :=
  let st := { st with
    hCostMult :=
      match env.searchType with
      | SearchType.PATH_SEARCH_ASTAR => 1
      | SearchType.PATH_SEARCH_DIJKSTRA => 0 }
  let st :=
    if st.moveCost st.srcNode = none then
      { st with moveCost := Function.update st.moveCost st.srcNode (some 0) }
    else st
  let st := { st with openList := [st.srcNode] }
  UpdateNode st st.srcNode none (some 0)
    (some (env.d st.srcPoint st.tgtPoint)) (st.moveCost st.srcNode)

/-- Embedding of the post-loop part of Execute (PathSearch.cpp lines
106 to 124): restore the source move cost if it was blocked, snap the
target to the midpoint of minNode on a partial result, and return
haveFullPath or havePartPath. -/
def ExecuteFinish (env : SearchEnv) (srcBlocked : Bool) (st : PathSearchState) :
    Bool × PathSearchState :=
  let st :=
    if srcBlocked then
      { st with moveCost := Function.update st.moveCost st.srcNode none }
    else st
  let st :=
    if !st.haveFullPath && st.havePartPath then
      { st with
        tgtNode := st.minNode,
        tgtPoint := { st.tgtPoint with
          x := ((env.nodes st.minNode).xmid : ℚ) * SQUARE_SIZE,
          z := ((env.nodes st.minNode).zmid : ℚ) * SQUARE_SIZE } }
    else st
  (st.haveFullPath || st.havePartPath, st)

/-- Embedding of QTPFS::PathSearch::Execute with partial searches
enabled (QTPFS_SUPPORT_PARTIAL_SEARCHES): stores the epoch values,
early-outs when source equals target, runs the setup, the driver loop
and the finish stage. The fuel argument bounds the number of loop
iterations; all theorems hold for every fuel. -/
def Execute (env : SearchEnv) (fuel searchStateOffset searchMagicNumber : ℕ)
    (st0 : PathSearchState) : Bool × PathSearchState :=
  let st := { st0 with
    searchState := searchStateOffset,
    searchMagic := searchMagicNumber,
    haveFullPath := decide (st0.srcNode = st0.tgtNode),
    havePartPath := false,
    pops := [], reopenedNodes := [] }
  if st.haveFullPath then (true, st)
  else
    ExecuteFinish env (decide (st.moveCost st.srcNode = none))
      (SearchLoop env fuel (ExecuteSetup env st))

/-! ## Helper lemmas about the scalar model and the heap model -/

theorem le_lor_one (a : ℕ) : a ≤ a ||| 1 := by
  have hd : (a ||| 1) / 2 = a / 2 := by rw [Nat.or_div_two]; norm_num
  have hm : (a ||| 1) % 2 = 1 := by rw [Nat.or_mod_two_eq_one]; right; rfl
  have h1 := Nat.div_add_mod (a ||| 1) 2
  have h2 := Nat.div_add_mod a 2
  have h3 : a % 2 ≤ 1 := by omega
  omega

theorem addC_ne_none {a b : Option ℚ} (ha : a ≠ none) (hb : b ≠ none) :
    addC a b ≠ none := by
  obtain ⟨x, rfl⟩ := Option.ne_none_iff_exists'.mp ha
  obtain ⟨y, rfl⟩ := Option.ne_none_iff_exists'.mp hb
  simp [addC]

theorem mulC_ne_none {a b : Option ℚ} (ha : a ≠ none) (hb : b ≠ none) :
    mulC a b ≠ none := by
  obtain ⟨x, rfl⟩ := Option.ne_none_iff_exists'.mp ha
  obtain ⟨y, rfl⟩ := Option.ne_none_iff_exists'.mp hb
  simp [mulC]

theorem mulC_mulC_self {h : Option ℚ} {m : ℚ} (hm : m * m = m) :
    mulC (mulC h (some m)) (some m) = mulC h (some m) := by
  cases h with
  | none => rfl
  | some a => simp [mulC, qmul_eq, mul_assoc, hm]

theorem mulC_some_zero {h : Option ℚ} (hh : h ≠ none) :
    mulC h (some 0) = some 0 := by
  obtain ⟨x, rfl⟩ := Option.ne_none_iff_exists'.mp hh
  simp [mulC, qmul_eq]

theorem heapMin_mem {f : ℕ → Option ℚ} :
    ∀ {l : List ℕ} {n : ℕ}, heapMin f l = some n → n ∈ l := by
  intro l
  induction l with
  | nil => intro n h; simp [heapMin] at h
  | cons a t ih =>
    intro n h
    unfold heapMin at h
    cases ht : heapMin f t with
    | none => rw [ht] at h; simp at h; simp [h]
    | some m =>
      rw [ht] at h
      by_cases hc : ltC (f m) (f a) = true
      · simp only [hc, if_true] at h
        cases h
        exact List.mem_cons_of_mem _ (ih ht)
      · simp only [Bool.not_eq_true] at hc
        simp only [hc, Bool.false_eq_true, if_false] at h
        cases h
        exact List.mem_cons_self _ _

/-! ## Frame facts: fields of the search state that Iterate never
writes -/

/-- Fields of the search state never written between the start and the
end of one Iterate call (and so of the whole driver loop). -/
def IterFrame (st st' : PathSearchState) : Prop :=
  st'.moveCost = st.moveCost ∧ st'.srcNode = st.srcNode ∧ st'.tgtNode = st.tgtNode ∧
  st'.srcPoint = st.srcPoint ∧ st'.tgtPoint = st.tgtPoint ∧
  st'.searchMagic = st.searchMagic ∧ st'.searchState = st.searchState ∧
  st'.hCostMult = st.hCostMult

theorem IterFrame_refl (st : PathSearchState) : IterFrame st st :=
  ⟨rfl, rfl, rfl, rfl, rfl, rfl, rfl, rfl⟩

theorem IterFrame_trans {a b c : PathSearchState} (h1 : IterFrame a b)
    (h2 : IterFrame b c) : IterFrame a c := by
  obtain ⟨m1, s1, t1, p1, q1, g1, e1, u1⟩ := h1
  obtain ⟨m2, s2, t2, p2, q2, g2, e2, u2⟩ := h2
  exact ⟨m2.trans m1, s2.trans s1, t2.trans t1, p2.trans p1, q2.trans q1,
    g2.trans g1, e2.trans e1, u2.trans u1⟩

theorem ExpandNeighbor_frame (env : SearchEnv) (cur : ℕ) (st : PathSearchState)
    (nxt : ℕ) :
    IterFrame st (ExpandNeighbor env cur st nxt) ∧
    (ExpandNeighbor env cur st nxt).curPoint = st.curPoint ∧
    (ExpandNeighbor env cur st nxt).haveFullPath = st.haveFullPath ∧
    (ExpandNeighbor env cur st nxt).havePartPath = st.havePartPath ∧
    (ExpandNeighbor env cur st nxt).minNode = st.minNode ∧
    (ExpandNeighbor env cur st nxt).pops = st.pops := by
  unfold ExpandNeighbor UpdateNode
  dsimp only
  split_ifs <;>
    exact ⟨⟨rfl, rfl, rfl, rfl, rfl, rfl, rfl, rfl⟩, rfl, rfl, rfl, rfl, rfl⟩

theorem foldl_ExpandNeighbor_frame (env : SearchEnv) (cur : ℕ) (l : List ℕ) :
    ∀ st : PathSearchState,
      IterFrame st (l.foldl (ExpandNeighbor env cur) st) ∧
      (l.foldl (ExpandNeighbor env cur) st).haveFullPath = st.haveFullPath ∧
      (l.foldl (ExpandNeighbor env cur) st).havePartPath = st.havePartPath ∧
      (l.foldl (ExpandNeighbor env cur) st).pops = st.pops ∧
      (l.foldl (ExpandNeighbor env cur) st).minNode = st.minNode := by
  induction l with
  | nil => intro st; exact ⟨IterFrame_refl st, rfl, rfl, rfl, rfl⟩
  | cons a t ih =>
    intro st
    rw [List.foldl_cons]
    obtain ⟨f1, _, hf1, hp1, hm1, hq1⟩ := ExpandNeighbor_frame env cur st a
    obtain ⟨f2, hf2, hp2, hq2, hm2⟩ := ih (ExpandNeighbor env cur st a)
    exact ⟨IterFrame_trans f1 f2, hf2.trans hf1, hp2.trans hp1, hq2.trans hq1,
      hm2.trans hm1⟩

theorem IterateExpand_frame (env : SearchEnv) (cur : ℕ) (st : PathSearchState) :
    IterFrame st (IterateExpand env cur st) ∧
    (IterateExpand env cur st).haveFullPath = st.haveFullPath ∧
    (IterateExpand env cur st).havePartPath = st.havePartPath := by
  unfold IterateExpand
  split_ifs with h1 h2 h3 h4 h5 h6
  · exact ⟨IterFrame_refl st, rfl, rfl⟩
  · exact ⟨IterFrame_refl st, rfl, rfl⟩
  · exact ⟨IterFrame_refl st, rfl, rfl⟩
  · exact ⟨IterFrame_refl st, rfl, rfl⟩
  · exact ⟨IterFrame_refl st, rfl, rfl⟩
  · obtain ⟨f, hf, hp, _, _⟩ := foldl_ExpandNeighbor_frame env cur
      (env.nodes cur).neighbors { st with minNode := cur }
    exact ⟨IterFrame_trans ⟨rfl, rfl, rfl, rfl, rfl, rfl, rfl, rfl⟩ f, hf, hp⟩
  · obtain ⟨f, hf, hp, _, _⟩ := foldl_ExpandNeighbor_frame env cur
      (env.nodes cur).neighbors st
    exact ⟨f, hf, hp⟩

theorem IteratePopped_frame (env : SearchEnv) (cur : ℕ) (st : PathSearchState) :
    IterFrame st (IteratePopped env cur st) ∧
    (IteratePopped env cur st).haveFullPath = st.haveFullPath ∧
    (IteratePopped env cur st).havePartPath = st.havePartPath := by
  unfold IteratePopped
  split_ifs with h1 h2
  · exact ⟨IterFrame_refl st, rfl, rfl⟩
  · obtain ⟨f, hf, hp⟩ := IterateExpand_frame env cur
      { st with curPoint :=
          match (st.scratch cur).prevNode with
          | some prv => env.etp cur prv st.curPoint
          | none => st.curPoint }
    exact ⟨IterFrame_trans ⟨rfl, rfl, rfl, rfl, rfl, rfl, rfl, rfl⟩ f, hf, hp⟩
  · exact IterateExpand_frame env cur st

theorem Iterate_frame (env : SearchEnv) (st : PathSearchState) :
    IterFrame st (Iterate env st) ∧
    (Iterate env st).haveFullPath = st.haveFullPath ∧
    (Iterate env st).havePartPath = st.havePartPath := by
  unfold Iterate
  cases hpop : heapMin (fun n => (st.scratch n).fCost) st.openList with
  | none => exact ⟨IterFrame_refl st, rfl, rfl⟩
  | some cur =>
    obtain ⟨f, hf, hp⟩ := IteratePopped_frame env cur
      { st with
        curNode := some cur,
        scratch := Function.update st.scratch cur
          { st.scratch cur with
            searchState := st.searchState ||| NODE_STATE_CLOSED,
            magicNumber := st.searchMagic },
        openList := st.openList.erase cur,
        pops := st.pops ++ [(cur, (st.scratch cur).fCost)] }
    exact ⟨IterFrame_trans ⟨rfl, rfl, rfl, rfl, rfl, rfl, rfl, rfl⟩ f, hf, hp⟩

theorem SearchLoopStep_frame (env : SearchEnv) (st : PathSearchState) :
    IterFrame st (SearchLoopStep env st) := by
  unfold SearchLoopStep
  have f1 := (Iterate_frame env st).1
  dsimp only
  split_ifs with h1
  · exact IterFrame_trans f1 ⟨rfl, rfl, rfl, rfl, rfl, rfl, rfl, rfl⟩
  · exact IterFrame_trans f1 ⟨rfl, rfl, rfl, rfl, rfl, rfl, rfl, rfl⟩

theorem SearchLoop_frame (env : SearchEnv) :
    ∀ (fuel : ℕ) (st : PathSearchState), IterFrame st (SearchLoop env fuel st) := by
  intro fuel
  induction fuel with
  | zero => intro st; exact IterFrame_refl st
  | succ n ih =>
    intro st
    unfold SearchLoop
    split_ifs with h1
    · exact IterFrame_refl st
    · exact IterFrame_trans (SearchLoopStep_frame env st) (ih _)

/-! ## The main search invariant

CostInv states the per-node scratch facts maintained for every node
stamped by the current search: the stored F equals the stored G plus
the stored H times hCostMult, the stored G and H are finite, and under
Dijkstra the stored H is zero. SearchInv carries CostInv for all
stamped nodes through the driver loop, together with the bookkeeping
facts needed to restore it after every write. -/

def CostInv (mult : ℚ) (s : NodeScratch) : Prop :=
  s.fCost = addC s.gCost (mulC s.hCost (some mult)) ∧
  s.gCost ≠ none ∧ s.hCost ≠ none ∧ (mult = 0 → s.hCost = some 0)

def SearchInv (base : ℕ) (mult : ℚ) (scr0 : ℕ → NodeScratch)
    (st : PathSearchState) : Prop :=
  st.searchState = base ∧ st.hCostMult = mult ∧
  (∀ n ∈ st.openList, base ≤ (st.scratch n).searchState) ∧
  (∀ n, base ≤ (st.scratch n).searchState → CostInv mult (st.scratch n)) ∧
  (∀ n, st.scratch n = scr0 n ∨ base ≤ (st.scratch n).searchState) ∧
  base ≤ (st.scratch st.srcNode).searchState

theorem UpdateNode_SearchInv {base : ℕ} {mult : ℚ} {scr0 : ℕ → NodeScratch}
    {st : PathSearchState} (nxt : ℕ) (cur : Option ℕ) (g h m : Option ℚ)
    (hm : mult * mult = mult) (hg : g ≠ none) (hh : h ≠ none)
    (inv : SearchInv base mult scr0 st) :
    SearchInv base mult scr0 (UpdateNode st nxt cur g h m) ∧
    base ≤ ((UpdateNode st nxt cur g h m).scratch nxt).searchState ∧
    (∀ k, base ≤ (st.scratch k).searchState →
      base ≤ ((UpdateNode st nxt cur g h m).scratch k).searchState) := by
  obtain ⟨hss, hmu, hopen, hcost, hscr, hsrc⟩ := inv
  have hb : st.searchState ||| NODE_STATE_OPEN = base := by
    rw [hss]; exact Nat.or_zero base
  have hupd : ∀ k, (UpdateNode st nxt cur g h m).scratch k =
      if k = nxt then
        ({ searchState := st.searchState ||| NODE_STATE_OPEN
           magicNumber := (st.scratch nxt).magicNumber
           prevNode := cur
           gCost := g
           hCost := mulC h (some st.hCostMult)
           fCost := addC g (mulC h (some st.hCostMult))
           mCost := m } : NodeScratch)
      else st.scratch k := by
    intro k
    unfold UpdateNode
    dsimp only
    rw [Function.update_apply]
  have hnsC : CostInv mult
      ({ searchState := st.searchState ||| NODE_STATE_OPEN
         magicNumber := (st.scratch nxt).magicNumber
         prevNode := cur
         gCost := g
         hCost := mulC h (some st.hCostMult)
         fCost := addC g (mulC h (some st.hCostMult))
         mCost := m } : NodeScratch) := by
    refine ⟨?_, hg, ?_, ?_⟩
    · show addC g (mulC h (some st.hCostMult))
        = addC g (mulC (mulC h (some st.hCostMult)) (some mult))
      rw [hmu, mulC_mulC_self hm]
    · show mulC h (some st.hCostMult) ≠ none
      exact mulC_ne_none hh (by simp)
    · intro h0
      show mulC h (some st.hCostMult) = some 0
      rw [hmu, h0]
      exact mulC_some_zero hh
  have hstamp : base ≤ ((UpdateNode st nxt cur g h m).scratch nxt).searchState := by
    rw [hupd nxt, if_pos rfl]
    exact le_of_eq hb.symm
  refine ⟨⟨hss, hmu, ?_, ?_, ?_, ?_⟩, hstamp, ?_⟩
  · intro n hn
    rw [hupd n]
    by_cases hk : n = nxt
    · rw [if_pos hk]; exact le_of_eq hb.symm
    · rw [if_neg hk]; exact hopen n hn
  · intro n hn
    rw [hupd n] at hn ⊢
    by_cases hk : n = nxt
    · rw [if_pos hk]; exact hnsC
    · rw [if_neg hk] at hn ⊢; exact hcost n hn
  · intro n
    rw [hupd n]
    by_cases hk : n = nxt
    · rw [if_pos hk]; right; exact le_of_eq hb.symm
    · rw [if_neg hk]; exact hscr n
  · show base ≤ ((UpdateNode st nxt cur g h m).scratch st.srcNode).searchState
    rw [hupd st.srcNode]
    by_cases hk : st.srcNode = nxt
    · rw [if_pos hk]; exact le_of_eq hb.symm
    · rw [if_neg hk]; exact hsrc
  · intro k hk
    rw [hupd k]
    by_cases hkk : k = nxt
    · rw [if_pos hkk]; exact le_of_eq hb.symm
    · rw [if_neg hkk]; exact hk

theorem ExpandNeighbor_SearchInv {base : ℕ} {mult : ℚ} {scr0 : ℕ → NodeScratch}
    (env : SearchEnv) (cur : ℕ) {st : PathSearchState} (nxt : ℕ)
    (hm : mult * mult = mult)
    (hmc : st.moveCost cur ≠ none)
    (hcur : base ≤ (st.scratch cur).searchState)
    (inv : SearchInv base mult scr0 st) :
    SearchInv base mult scr0 (ExpandNeighbor env cur st nxt) ∧
    base ≤ ((ExpandNeighbor env cur st nxt).scratch cur).searchState ∧
    (ExpandNeighbor env cur st nxt).moveCost = st.moveCost := by
  have hgcur : (st.scratch cur).gCost ≠ none := (inv.2.2.2.1 cur hcur).2.1
  unfold ExpandNeighbor
  dsimp only
  split_ifs with h1 h2 h3 h4 <;>
    first
      | exact ⟨inv, hcur, rfl⟩
      | -- first-touch branch: UpdateNode then push onto the open list
        (have hgne : addC (addC (st.scratch cur).gCost
              (mulC (st.moveCost cur) (some (env.d st.curPoint (env.etp cur nxt st.curPoint)))))
            (mulC (mulC (st.moveCost nxt) (some (env.d (env.etp cur nxt st.curPoint) st.tgtPoint)))
              (some (indQ (nxt = st.tgtNode)))) ≠ none :=
          addC_ne_none (addC_ne_none hgcur (mulC_ne_none hmc (by simp)))
            (mulC_ne_none (mulC_ne_none h1 (by simp)) (by simp))
         obtain ⟨inv2, hn2, hp2⟩ := @UpdateNode_SearchInv base mult scr0 { st with
             nxtNode := some nxt, nxtPoint := env.etp cur nxt st.curPoint }
           nxt (some cur)
           (addC (addC (st.scratch cur).gCost
               (mulC (st.moveCost cur) (some (env.d st.curPoint (env.etp cur nxt st.curPoint)))))
             (mulC (mulC (st.moveCost nxt) (some (env.d (env.etp cur nxt st.curPoint) st.tgtPoint)))
               (some (indQ (nxt = st.tgtNode)))))
           (some (qmul (qmul 2 (env.d (env.etp cur nxt st.curPoint) st.tgtPoint)) (indQ (¬ nxt = st.tgtNode))))
           (addC (addC (st.scratch cur).mCost (st.moveCost cur))
             (mulC (st.moveCost nxt) (some (indQ (nxt = st.tgtNode)))))
           hm hgne (by simp) inv
         obtain ⟨c1, c2, c3, c4, c5, c6⟩ := inv2
         refine ⟨⟨c1, c2, ?_, c4, c5, c6⟩, hp2 cur hcur, rfl⟩
         intro n hn
         rcases List.mem_append.mp hn with hn | hn
         · exact c3 n hn
         · have hx : n = nxt := by simpa using hn
           rw [hx]; exact hn2)
      | -- re-open of a closed node: push back, then UpdateNode
        (have hcu : base ≤ (st.scratch nxt).searchState := by
           have hy := not_not.mp (by simpa using h2)
           calc base = st.searchState := inv.1.symm
             _ ≤ (st.scratch nxt).searchState := hy
         have hgne : addC (addC (st.scratch cur).gCost
              (mulC (st.moveCost cur) (some (env.d st.curPoint (env.etp cur nxt st.curPoint)))))
            (mulC (mulC (st.moveCost nxt) (some (env.d (env.etp cur nxt st.curPoint) st.tgtPoint)))
              (some (indQ (nxt = st.tgtNode)))) ≠ none :=
          addC_ne_none (addC_ne_none hgcur (mulC_ne_none hmc (by simp)))
            (mulC_ne_none (mulC_ne_none h1 (by simp)) (by simp))
         obtain ⟨hss, hmu, hopen, hcost, hscr, hsrc⟩ := inv
         have invMid : SearchInv base mult scr0 { st with
             nxtNode := some nxt, nxtPoint := env.etp cur nxt st.curPoint,
             openList := st.openList ++ [nxt],
             reopenedNodes := st.reopenedNodes ++
               [(nxt, addC (addC (st.scratch cur).gCost
                   (mulC (st.moveCost cur) (some (env.d st.curPoint (env.etp cur nxt st.curPoint)))))
                 (mulC (mulC (st.moveCost nxt) (some (env.d (env.etp cur nxt st.curPoint) st.tgtPoint)))
                   (some (indQ (nxt = st.tgtNode)))), (st.scratch nxt).gCost)] } := by
           refine ⟨hss, hmu, ?_, hcost, hscr, hsrc⟩
           intro n hn
           rcases List.mem_append.mp hn with hn | hn
           · exact hopen n hn
           · have hx : n = nxt := by simpa using hn
             rw [hx]; exact hcu
         obtain ⟨inv2, hn2, hp2⟩ := UpdateNode_SearchInv nxt (some cur)
           (addC (addC (st.scratch cur).gCost
               (mulC (st.moveCost cur) (some (env.d st.curPoint (env.etp cur nxt st.curPoint)))))
             (mulC (mulC (st.moveCost nxt) (some (env.d (env.etp cur nxt st.curPoint) st.tgtPoint)))
               (some (indQ (nxt = st.tgtNode)))))
           (some (qmul (qmul 2 (env.d (env.etp cur nxt st.curPoint) st.tgtPoint)) (indQ (¬ nxt = st.tgtNode))))
           (addC (addC (st.scratch cur).mCost (st.moveCost cur))
             (mulC (st.moveCost nxt) (some (indQ (nxt = st.tgtNode)))))
           hm hgne (by simp) invMid
         exact ⟨inv2, hp2 cur hcur, rfl⟩)
      | -- better g for a still-open node: UpdateNode in place
        (have hgne : addC (addC (st.scratch cur).gCost
              (mulC (st.moveCost cur) (some (env.d st.curPoint (env.etp cur nxt st.curPoint)))))
            (mulC (mulC (st.moveCost nxt) (some (env.d (env.etp cur nxt st.curPoint) st.tgtPoint)))
              (some (indQ (nxt = st.tgtNode)))) ≠ none :=
          addC_ne_none (addC_ne_none hgcur (mulC_ne_none hmc (by simp)))
            (mulC_ne_none (mulC_ne_none h1 (by simp)) (by simp))
         obtain ⟨inv2, hn2, hp2⟩ := @UpdateNode_SearchInv base mult scr0 { st with
             nxtNode := some nxt, nxtPoint := env.etp cur nxt st.curPoint }
           nxt (some cur)
           (addC (addC (st.scratch cur).gCost
               (mulC (st.moveCost cur) (some (env.d st.curPoint (env.etp cur nxt st.curPoint)))))
             (mulC (mulC (st.moveCost nxt) (some (env.d (env.etp cur nxt st.curPoint) st.tgtPoint)))
               (some (indQ (nxt = st.tgtNode)))))
           (some (qmul (qmul 2 (env.d (env.etp cur nxt st.curPoint) st.tgtPoint)) (indQ (¬ nxt = st.tgtNode))))
           (addC (addC (st.scratch cur).mCost (st.moveCost cur))
             (mulC (st.moveCost nxt) (some (indQ (nxt = st.tgtNode)))))
           hm hgne (by simp) inv
         exact ⟨inv2, hp2 cur hcur, rfl⟩)

theorem foldl_ExpandNeighbor_SearchInv {base : ℕ} {mult : ℚ} {scr0 : ℕ → NodeScratch}
    (env : SearchEnv) (cur : ℕ) (l : List ℕ) :
    ∀ {st : PathSearchState}, mult * mult = mult →
      st.moveCost cur ≠ none →
      base ≤ (st.scratch cur).searchState →
      SearchInv base mult scr0 st →
      SearchInv base mult scr0 (l.foldl (ExpandNeighbor env cur) st) ∧
      (l.foldl (ExpandNeighbor env cur) st).moveCost = st.moveCost := by
  induction l with
  | nil => intro st _ _ _ inv; exact ⟨inv, rfl⟩
  | cons a t ih =>
    intro st hm hmc hcur inv
    rw [List.foldl_cons]
    obtain ⟨inv1, hcur1, hmov1⟩ := ExpandNeighbor_SearchInv env cur a hm hmc hcur inv
    obtain ⟨inv2, hmov2⟩ := ih hm (by rw [hmov1]; exact hmc) hcur1 inv1
    exact ⟨inv2, hmov2.trans hmov1⟩

theorem IterateExpand_SearchInv {base : ℕ} {mult : ℚ} {scr0 : ℕ → NodeScratch}
    (env : SearchEnv) (cur : ℕ) {st : PathSearchState}
    (hm : mult * mult = mult)
    (hcur : base ≤ (st.scratch cur).searchState)
    (inv : SearchInv base mult scr0 st) :
    SearchInv base mult scr0 (IterateExpand env cur st) ∧
    (IterateExpand env cur st).moveCost = st.moveCost ∧
    (mult = 0 → st.minNode = st.srcNode →
      (IterateExpand env cur st).minNode = (IterateExpand env cur st).srcNode) := by
  unfold IterateExpand
  split_ifs with h1 h2 h3 h4 h5 h6
  · exact ⟨inv, rfl, fun _ h => h⟩
  · exact ⟨inv, rfl, fun _ h => h⟩
  · exact ⟨inv, rfl, fun _ h => h⟩
  · exact ⟨inv, rfl, fun _ h => h⟩
  · exact ⟨inv, rfl, fun _ h => h⟩
  · -- minNode is replaced by the popped node: impossible under Dijkstra
    dsimp only
    obtain ⟨hss, hmu, hopen, hcost, hscr, hsrc⟩ := inv
    have invMid : SearchInv base mult scr0 { st with minNode := cur } :=
      ⟨hss, hmu, hopen, hcost, hscr, hsrc⟩
    have h1m : ({ st with minNode := cur } : PathSearchState).moveCost cur ≠ none := h1
    have hcurm : base ≤
        (({ st with minNode := cur } : PathSearchState).scratch cur).searchState := hcur
    obtain ⟨invF, hmovF⟩ := foldl_ExpandNeighbor_SearchInv env cur
      (env.nodes cur).neighbors hm h1m hcurm invMid
    refine ⟨invF, hmovF, ?_⟩
    intro h0 hms
    exfalso
    have hcz : (st.scratch cur).hCost = some 0 := (hcost cur hcur).2.2.2 h0
    have hsz : (st.scratch st.minNode).hCost = some 0 := by
      rw [hms]; exact (hcost st.srcNode hsrc).2.2.2 h0
    rw [hcz, hsz] at h6
    simp [ltC] at h6
  · -- minNode is kept
    dsimp only
    obtain ⟨invF, hmovF⟩ := foldl_ExpandNeighbor_SearchInv env cur
      (env.nodes cur).neighbors hm h1 hcur inv
    refine ⟨invF, hmovF, ?_⟩
    intro h0 hms
    obtain ⟨fr, _, _, _, hminF⟩ := foldl_ExpandNeighbor_frame env cur
      (env.nodes cur).neighbors st
    obtain ⟨_, hsrcF, _, _, _, _, _, _⟩ := fr
    rw [hminF, hsrcF, hms]

theorem IteratePopped_SearchInv {base : ℕ} {mult : ℚ} {scr0 : ℕ → NodeScratch}
    (env : SearchEnv) (cur : ℕ) {st : PathSearchState}
    (hm : mult * mult = mult)
    (hcur : base ≤ (st.scratch cur).searchState)
    (inv : SearchInv base mult scr0 st) :
    SearchInv base mult scr0 (IteratePopped env cur st) ∧
    (IteratePopped env cur st).moveCost = st.moveCost ∧
    (mult = 0 → st.minNode = st.srcNode →
      (IteratePopped env cur st).minNode = (IteratePopped env cur st).srcNode) := by
  unfold IteratePopped
  split_ifs with h1 h2
  · exact ⟨inv, rfl, fun _ h => h⟩
  · exact IterateExpand_SearchInv env cur hm hcur inv
  · exact IterateExpand_SearchInv env cur hm hcur inv

theorem Iterate_SearchInv {base : ℕ} {mult : ℚ} {scr0 : ℕ → NodeScratch}
    (env : SearchEnv) {st : PathSearchState}
    (hm : mult * mult = mult)
    (inv : SearchInv base mult scr0 st) :
    SearchInv base mult scr0 (Iterate env st) ∧
    (Iterate env st).moveCost = st.moveCost ∧
    (mult = 0 → st.minNode = st.srcNode →
      (Iterate env st).minNode = (Iterate env st).srcNode) := by
  unfold Iterate
  cases hpop : heapMin (fun n => (st.scratch n).fCost) st.openList with
  | none => exact ⟨inv, rfl, fun _ h => h⟩
  | some cur =>
    obtain ⟨hss, hmu, hopen, hcost, hscr, hsrc⟩ := inv
    have hcur0 : base ≤ (st.scratch cur).searchState :=
      hopen cur (heapMin_mem hpop)
    have hble : base ≤ st.searchState ||| NODE_STATE_CLOSED := by
      rw [hss]; exact le_lor_one base
    have hupd : ∀ k, (Function.update st.scratch cur
        ({ st.scratch cur with
           searchState := st.searchState ||| NODE_STATE_CLOSED,
           magicNumber := st.searchMagic })) k =
        if k = cur then
          ({ st.scratch cur with
             searchState := st.searchState ||| NODE_STATE_CLOSED,
             magicNumber := st.searchMagic }) else st.scratch k := by
      intro k; rw [Function.update_apply]
    have invMid : SearchInv base mult scr0 { st with
        curNode := some cur,
        scratch := Function.update st.scratch cur
          ({ st.scratch cur with
             searchState := st.searchState ||| NODE_STATE_CLOSED,
             magicNumber := st.searchMagic }),
        openList := st.openList.erase cur,
        pops := st.pops ++ [(cur, (st.scratch cur).fCost)] } := by
      refine ⟨hss, hmu, ?_, ?_, ?_, ?_⟩
      · intro n hn
        show base ≤ ((Function.update st.scratch cur
          ({ st.scratch cur with
             searchState := st.searchState ||| NODE_STATE_CLOSED,
             magicNumber := st.searchMagic })) n).searchState
        rw [hupd n]
        by_cases hk : n = cur
        · rw [if_pos hk]; exact hble
        · rw [if_neg hk]; exact hopen n (List.mem_of_mem_erase hn)
      · intro n hn
        have hn' : base ≤ ((Function.update st.scratch cur
          ({ st.scratch cur with
             searchState := st.searchState ||| NODE_STATE_CLOSED,
             magicNumber := st.searchMagic })) n).searchState := hn
        show CostInv mult ((Function.update st.scratch cur
          ({ st.scratch cur with
             searchState := st.searchState ||| NODE_STATE_CLOSED,
             magicNumber := st.searchMagic })) n)
        rw [hupd n] at hn' ⊢
        by_cases hk : n = cur
        · rw [if_pos hk]
          obtain ⟨q1, q2, q3, q4⟩ := hcost cur hcur0
          exact ⟨q1, q2, q3, q4⟩
        · rw [if_neg hk] at hn' ⊢; exact hcost n hn'
      · intro n
        show Function.update st.scratch cur
          ({ st.scratch cur with
             searchState := st.searchState ||| NODE_STATE_CLOSED,
             magicNumber := st.searchMagic }) n = scr0 n ∨
          base ≤ ((Function.update st.scratch cur
          ({ st.scratch cur with
             searchState := st.searchState ||| NODE_STATE_CLOSED,
             magicNumber := st.searchMagic })) n).searchState
        rw [hupd n]
        by_cases hk : n = cur
        · rw [if_pos hk]; right; exact hble
        · rw [if_neg hk]; exact hscr n
      · show base ≤ ((Function.update st.scratch cur
          ({ st.scratch cur with
             searchState := st.searchState ||| NODE_STATE_CLOSED,
             magicNumber := st.searchMagic })) st.srcNode).searchState
        rw [hupd st.srcNode]
        by_cases hk : st.srcNode = cur
        · rw [if_pos hk]; exact hble
        · rw [if_neg hk]; exact hsrc
    have hcur1 : base ≤ ((Function.update st.scratch cur
        ({ st.scratch cur with
           searchState := st.searchState ||| NODE_STATE_CLOSED,
           magicNumber := st.searchMagic })) cur).searchState := by
      rw [hupd cur, if_pos rfl]; exact hble
    exact IteratePopped_SearchInv env cur hm hcur1 invMid

theorem SearchLoopStep_SearchInv {base : ℕ} {mult : ℚ} {scr0 : ℕ → NodeScratch}
    (env : SearchEnv) {st : PathSearchState}
    (hm : mult * mult = mult)
    (inv : SearchInv base mult scr0 st) :
    SearchInv base mult scr0 (SearchLoopStep env st) ∧
    (SearchLoopStep env st).moveCost = st.moveCost ∧
    (mult = 0 → st.minNode = st.srcNode →
      (SearchLoopStep env st).minNode = (SearchLoopStep env st).srcNode) := by
  unfold SearchLoopStep
  obtain ⟨inv1, hmov1, hmin1⟩ := Iterate_SearchInv env hm inv
  obtain ⟨hss, hmu, hopen, hcost, hscr, hsrc⟩ := inv1
  dsimp only
  split_ifs with h1
  · exact ⟨⟨hss, hmu, by intro n hn; simp at hn, hcost, hscr, hsrc⟩, hmov1, hmin1⟩
  · exact ⟨⟨hss, hmu, hopen, hcost, hscr, hsrc⟩, hmov1, hmin1⟩

theorem SearchLoop_SearchInv {base : ℕ} {mult : ℚ} {scr0 : ℕ → NodeScratch}
    (env : SearchEnv) (hm : mult * mult = mult) :
    ∀ (fuel : ℕ) {st : PathSearchState},
      SearchInv base mult scr0 st →
      SearchInv base mult scr0 (SearchLoop env fuel st) ∧
      (SearchLoop env fuel st).moveCost = st.moveCost ∧
      (mult = 0 → st.minNode = st.srcNode →
        (SearchLoop env fuel st).minNode = (SearchLoop env fuel st).srcNode) := by
  intro fuel
  induction fuel with
  | zero => intro st inv; exact ⟨inv, rfl, fun _ h => h⟩
  | succ n ih =>
    intro st inv
    unfold SearchLoop
    split_ifs with h1
    · exact ⟨inv, rfl, fun _ h => h⟩
    · obtain ⟨inv1, hmov1, hmin1⟩ := SearchLoopStep_SearchInv env hm inv
      obtain ⟨inv2, hmov2, hmin2⟩ := ih inv1
      exact ⟨inv2, hmov2.trans hmov1, fun h0 hms => hmin2 h0 (hmin1 h0 hms)⟩

/-- Establishes the search invariant for the state right after Execute
seeds the heap with the source node and stamps it. -/
theorem initial_SearchInv {so : ℕ} {mult : ℚ} (st : PathSearchState)
    (hss : st.searchState = so) (hmu : st.hCostMult = mult)
    (hm : mult * mult = mult)
    (hopen : st.openList = [st.srcNode])
    (hfresh : ∀ n, (st.scratch n).searchState < so)
    (g h m : Option ℚ) (hg : g ≠ none) (hh : h ≠ none) :
    SearchInv so mult st.scratch (UpdateNode st st.srcNode none g h m) := by
  have hb : st.searchState ||| NODE_STATE_OPEN = so := by
    rw [hss]; exact Nat.or_zero so
  have hupd : ∀ k, (UpdateNode st st.srcNode none g h m).scratch k =
      if k = st.srcNode then
        ({ searchState := st.searchState ||| NODE_STATE_OPEN
           magicNumber := (st.scratch st.srcNode).magicNumber
           prevNode := none
           gCost := g
           hCost := mulC h (some st.hCostMult)
           fCost := addC g (mulC h (some st.hCostMult))
           mCost := m } : NodeScratch)
      else st.scratch k := by
    intro k
    unfold UpdateNode
    dsimp only
    rw [Function.update_apply]
  have hnsC : CostInv mult
      ({ searchState := st.searchState ||| NODE_STATE_OPEN
         magicNumber := (st.scratch st.srcNode).magicNumber
         prevNode := none
         gCost := g
         hCost := mulC h (some st.hCostMult)
         fCost := addC g (mulC h (some st.hCostMult))
         mCost := m } : NodeScratch) := by
    refine ⟨?_, hg, ?_, ?_⟩
    · show addC g (mulC h (some st.hCostMult))
        = addC g (mulC (mulC h (some st.hCostMult)) (some mult))
      rw [hmu, mulC_mulC_self hm]
    · show mulC h (some st.hCostMult) ≠ none
      exact mulC_ne_none hh (by simp)
    · intro h0
      show mulC h (some st.hCostMult) = some 0
      rw [hmu, h0]
      exact mulC_some_zero hh
  refine ⟨hss, hmu, ?_, ?_, ?_, ?_⟩
  · intro n hn
    have hx : n = st.srcNode := by
      have : n ∈ st.openList := hn
      rw [hopen] at this
      simpa using this
    rw [hupd n, if_pos hx]
    exact le_of_eq hb.symm
  · intro n hn
    rw [hupd n] at hn ⊢
    by_cases hk : n = st.srcNode
    · rw [if_pos hk] at hn ⊢; exact hnsC
    · rw [if_neg hk] at hn ⊢
      exact absurd hn (not_le.mpr (hfresh n))
  · intro n
    rw [hupd n]
    by_cases hk : n = st.srcNode
    · rw [if_pos hk]; right; exact le_of_eq hb.symm
    · rw [if_neg hk]; left; rfl
  · show so ≤ ((UpdateNode st st.srcNode none g h m).scratch st.srcNode).searchState
    rw [hupd st.srcNode, if_pos rfl]
    exact le_of_eq hb.symm

/-- Under Dijkstra the minimum-h update never fires, so minNode stays
at the source node and havePartPath stays false across one driver-loop
step. -/
theorem SearchLoopStep_dijkstra {base : ℕ} {scr0 : ℕ → NodeScratch}
    (env : SearchEnv) {st : PathSearchState}
    (inv : SearchInv base 0 scr0 st) (hms : st.minNode = st.srcNode) :
    (SearchLoopStep env st).minNode = (SearchLoopStep env st).srcNode ∧
    (SearchLoopStep env st).havePartPath = false := by
  obtain ⟨invI, hmovI, hminI⟩ := Iterate_SearchInv env (by norm_num) inv
  have he : (Iterate env st).minNode = (Iterate env st).srcNode := hminI rfl hms
  unfold SearchLoopStep
  dsimp only
  split_ifs with h1
  · exact ⟨he, by simp [he]⟩
  · exact ⟨he, by simp [he]⟩

theorem SearchLoop_dijkstra {base : ℕ} {scr0 : ℕ → NodeScratch} (env : SearchEnv) :
    ∀ (fuel : ℕ) {st : PathSearchState},
      SearchInv base 0 scr0 st → st.minNode = st.srcNode →
      st.havePartPath = false →
      (SearchLoop env fuel st).minNode = (SearchLoop env fuel st).srcNode ∧
      (SearchLoop env fuel st).havePartPath = false := by
  intro fuel
  induction fuel with
  | zero => intro st _ hms hp; exact ⟨hms, hp⟩
  | succ n ih =>
    intro st inv hms hp
    unfold SearchLoop
    split_ifs with h1
    · exact ⟨hms, hp⟩
    · obtain ⟨invS, _, _⟩ := SearchLoopStep_SearchInv env (by norm_num) inv
      obtain ⟨hmsS, hpS⟩ := SearchLoopStep_dijkstra env inv hms
      exact ih invS hmsS hpS

/-- The setup stage of Execute establishes the search invariant, for
any epoch-fresh starting state. -/
theorem ExecuteSetup_SearchInv (env : SearchEnv) {so : ℕ} (st : PathSearchState)
    (hss : st.searchState = so)
    (hfresh : ∀ n, (st.scratch n).searchState < so) :
    SearchInv so
      (match env.searchType with
       | SearchType.PATH_SEARCH_ASTAR => (1 : ℚ)
       | SearchType.PATH_SEARCH_DIJKSTRA => 0)
      st.scratch (ExecuteSetup env st) := by
  have hm : (match env.searchType with
       | SearchType.PATH_SEARCH_ASTAR => (1 : ℚ)
       | SearchType.PATH_SEARCH_DIJKSTRA => 0) *
      (match env.searchType with
       | SearchType.PATH_SEARCH_ASTAR => (1 : ℚ)
       | SearchType.PATH_SEARCH_DIJKSTRA => 0) =
      (match env.searchType with
       | SearchType.PATH_SEARCH_ASTAR => (1 : ℚ)
       | SearchType.PATH_SEARCH_DIJKSTRA => 0) := by
    cases env.searchType <;> norm_num
  unfold ExecuteSetup
  dsimp only
  split_ifs with h1
  · exact initial_SearchInv
      ({ st with
        hCostMult :=
          match env.searchType with
          | SearchType.PATH_SEARCH_ASTAR => 1
          | SearchType.PATH_SEARCH_DIJKSTRA => 0,
        moveCost := Function.update st.moveCost st.srcNode (some 0),
        openList := [st.srcNode] })
      hss rfl hm rfl hfresh (some 0) (some (env.d st.srcPoint st.tgtPoint))
      (Function.update st.moveCost st.srcNode (some 0) st.srcNode)
      (by simp) (by simp)
  · exact initial_SearchInv
      ({ st with
        hCostMult :=
          match env.searchType with
          | SearchType.PATH_SEARCH_ASTAR => 1
          | SearchType.PATH_SEARCH_DIJKSTRA => 0,
        openList := [st.srcNode] })
      hss rfl hm rfl hfresh (some 0) (some (env.d st.srcPoint st.tgtPoint))
      (st.moveCost st.srcNode)
      (by simp) (by simp)

/-- Fields of the search state untouched by the setup stage. -/
theorem ExecuteSetup_fields (env : SearchEnv) (st : PathSearchState) :
    (ExecuteSetup env st).srcNode = st.srcNode ∧
    (ExecuteSetup env st).minNode = st.minNode ∧
    (ExecuteSetup env st).havePartPath = st.havePartPath ∧
    (ExecuteSetup env st).haveFullPath = st.haveFullPath := by
  unfold ExecuteSetup UpdateNode
  dsimp only
  split_ifs <;> exact ⟨rfl, rfl, rfl, rfl⟩

/-- The move-cost table produced by the setup stage: updated at the
source node when blocked, untouched otherwise. -/
theorem ExecuteSetup_moveCost (env : SearchEnv) (st : PathSearchState) :
    (st.moveCost st.srcNode = none →
      (ExecuteSetup env st).moveCost =
        Function.update st.moveCost st.srcNode (some 0)) ∧
    (st.moveCost st.srcNode ≠ none →
      (ExecuteSetup env st).moveCost = st.moveCost) := by
  unfold ExecuteSetup UpdateNode
  dsimp only
  split_ifs with h1 <;> constructor <;> intro h <;>
    first | rfl | (exact absurd h1 h) | (exact absurd h h1)

/-- Field bookkeeping of the finish stage of Execute. -/
theorem ExecuteFinish_fields (env : SearchEnv) (b : Bool) (st : PathSearchState) :
    (ExecuteFinish env b st).2.scratch = st.scratch ∧
    (ExecuteFinish env b st).2.hCostMult = st.hCostMult ∧
    (ExecuteFinish env b st).2.minNode = st.minNode ∧
    (ExecuteFinish env b st).2.havePartPath = st.havePartPath ∧
    (ExecuteFinish env b st).2.haveFullPath = st.haveFullPath ∧
    (ExecuteFinish env b st).2.srcNode = st.srcNode ∧
    (ExecuteFinish env b st).1 = (st.haveFullPath || st.havePartPath) ∧
    (b = false → (ExecuteFinish env b st).2.moveCost = st.moveCost) ∧
    (b = true → (ExecuteFinish env b st).2.moveCost =
      Function.update st.moveCost st.srcNode none) := by
  unfold ExecuteFinish
  dsimp only
  split_ifs with h1 h2 <;>
    refine ⟨rfl, rfl, rfl, rfl, rfl, rfl, rfl, ?_, ?_⟩ <;> intro h <;>
      first | rfl | (exact absurd h1 (by simp [h])) | (exact absurd h (by simp [h1]))

/-- Master lemma about one Execute run from an epoch-fresh state: every
node scratch is either untouched or stamped and satisfying the cost
invariant for the hCostMult of this search; the source move cost is
restored; hCostMult matches the search type; and under Dijkstra
minNode stays at the source, havePartPath stays false and a true
return implies a full path. -/
theorem Execute_master (env : SearchEnv) (fuel so mg : ℕ) (st0 : PathSearchState)
    (hfresh : ∀ n, (st0.scratch n).searchState < so) :
    (∀ n, (Execute env fuel so mg st0).2.scratch n = st0.scratch n ∨
       (so ≤ ((Execute env fuel so mg st0).2.scratch n).searchState ∧
        CostInv ((Execute env fuel so mg st0).2.hCostMult)
          ((Execute env fuel so mg st0).2.scratch n))) ∧
    ((Execute env fuel so mg st0).2.moveCost st0.srcNode
      = st0.moveCost st0.srcNode) ∧
    (st0.srcNode ≠ st0.tgtNode →
      (Execute env fuel so mg st0).2.hCostMult =
        (match env.searchType with
         | SearchType.PATH_SEARCH_ASTAR => (1 : ℚ)
         | SearchType.PATH_SEARCH_DIJKSTRA => 0)) ∧
    (env.searchType = SearchType.PATH_SEARCH_DIJKSTRA →
      st0.srcNode ≠ st0.tgtNode → st0.minNode = st0.srcNode →
      (Execute env fuel so mg st0).2.minNode = st0.srcNode ∧
      (Execute env fuel so mg st0).2.havePartPath = false ∧
      ((Execute env fuel so mg st0).1 = true →
        (Execute env fuel so mg st0).2.haveFullPath = true)) := by
  unfold Execute
  dsimp only
  split_ifs with h1
  · have hx : st0.srcNode = st0.tgtNode := of_decide_eq_true h1
    exact ⟨fun n => Or.inl rfl, rfl, fun hne => absurd hx hne,
      fun _ hne => absurd hx hne⟩
  · have hm : (match env.searchType with
         | SearchType.PATH_SEARCH_ASTAR => (1 : ℚ)
         | SearchType.PATH_SEARCH_DIJKSTRA => 0) *
        (match env.searchType with
         | SearchType.PATH_SEARCH_ASTAR => (1 : ℚ)
         | SearchType.PATH_SEARCH_DIJKSTRA => 0) =
        (match env.searchType with
         | SearchType.PATH_SEARCH_ASTAR => (1 : ℚ)
         | SearchType.PATH_SEARCH_DIJKSTRA => 0) := by
      cases env.searchType <;> norm_num
    have inv0 := ExecuteSetup_SearchInv env { st0 with
      searchState := so, searchMagic := mg,
      haveFullPath := decide (st0.srcNode = st0.tgtNode), havePartPath := false,
      pops := [], reopenedNodes := [] } rfl hfresh
    obtain ⟨invL, hmovL, hminL⟩ := SearchLoop_SearchInv env hm fuel inv0
    have frL := SearchLoop_frame env fuel (ExecuteSetup env { st0 with
      searchState := so, searchMagic := mg,
      haveFullPath := decide (st0.srcNode = st0.tgtNode), havePartPath := false,
      pops := [], reopenedNodes := [] })
    have hsetf := ExecuteSetup_fields env { st0 with
      searchState := so, searchMagic := mg,
      haveFullPath := decide (st0.srcNode = st0.tgtNode), havePartPath := false,
      pops := [], reopenedNodes := [] }
    have hsrcL : (SearchLoop env fuel (ExecuteSetup env { st0 with
        searchState := so, searchMagic := mg,
        haveFullPath := decide (st0.srcNode = st0.tgtNode), havePartPath := false,
        pops := [], reopenedNodes := [] })).srcNode = st0.srcNode :=
      frL.2.1.trans hsetf.1
    refine ⟨?_, ?_, ?_, ?_⟩
    · intro n
      rw [(ExecuteFinish_fields env _ _).1, (ExecuteFinish_fields env _ _).2.1]
      rcases invL.2.2.2.2.1 n with h | h
      · exact Or.inl h
      · exact Or.inr ⟨h, by rw [invL.2.1]; exact invL.2.2.2.1 n h⟩
    · by_cases hb : st0.moveCost st0.srcNode = none
      · rw [(ExecuteFinish_fields env _ _).2.2.2.2.2.2.2.2 (decide_eq_true hb)]
        rw [hsrcL, Function.update_same, hb]
      · rw [(ExecuteFinish_fields env _ _).2.2.2.2.2.2.2.1
          (decide_eq_false hb)]
        have hset := (ExecuteSetup_moveCost env { st0 with
          searchState := so, searchMagic := mg,
          haveFullPath := decide (st0.srcNode = st0.tgtNode), havePartPath := false,
          pops := [], reopenedNodes := [] }).2 hb
        rw [congrFun hmovL st0.srcNode, congrFun hset st0.srcNode]
    · intro _
      rw [(ExecuteFinish_fields env _ _).2.1]
      exact invL.2.1
    · intro hd hne hms
      have inv0d : SearchInv so 0 st0.scratch (ExecuteSetup env { st0 with
          searchState := so, searchMagic := mg,
          haveFullPath := decide (st0.srcNode = st0.tgtNode), havePartPath := false,
          pops := [], reopenedNodes := [] }) := by
        rw [hd] at inv0; exact inv0
      obtain ⟨hminEq, hpartF⟩ := SearchLoop_dijkstra env fuel inv0d
        (hsetf.2.1.trans (hms.trans hsetf.1.symm)) hsetf.2.2.1
      refine ⟨?_, ?_, ?_⟩
      · rw [(ExecuteFinish_fields env _ _).2.2.1, hminEq, hsrcL]
      · rw [(ExecuteFinish_fields env _ _).2.2.2.1]
        exact hpartF
      · intro hr
        rw [(ExecuteFinish_fields env _ _).2.2.2.2.1]
        rw [(ExecuteFinish_fields env _ _).2.2.2.2.2.2.1, hpartF,
          Bool.or_false] at hr
        exact hr

/-! ## SharedFinalize (PathSearch.cpp line 512) -/

/-- Embedding of QTPFS::PathSearch::SharedFinalize. The fields srcPoint
and tgtPoint of the search are passed explicitly; the result is the
returned boolean together with the updated destination path and cache. -/
def SharedFinalize (srcPoint tgtPoint : float3) (cache : PathCache)
    (srcPath dstPath : IPath) : Bool × IPath × PathCache :=
  let p0 := srcPath.GetTargetPoint
  let p1 := dstPath.GetTargetPoint
  if float3.SqDistance p0 p1 < SQUARE_SIZE * SQUARE_SIZE then
    let d := ((dstPath.CopyPoints srcPath).SetSourcePoint srcPoint).SetTargetPoint tgtPoint
    let d := d.SetBoundingBox
    (true, d, cache.AddLivePath d)
  else
    (false, dstPath, cache)

/-! ## Concrete instances used by witnesses and counterexamples

All points lie on the x-axis with equal y and z coordinates, so the
distance function distX below coincides with the Euclidean distance on
every pair of points the searches evaluate. -/

/-- Distance along the x-axis; equal to the Euclidean distance for
points sharing y and z. -/
def distX (a b : float3) : ℚ :=
  if a.x ≤ b.x then qsub b.x a.x else qsub a.x b.x

/-- Sanity check: distX is the absolute x-difference. -/
theorem distX_eq (a b : float3) : distX a b = |b.x - a.x| := by
  unfold distX
  split_ifs with h
  · rw [qsub_eq, abs_of_nonneg (sub_nonneg.mpr h)]
  · rw [qsub_eq, abs_of_neg (sub_neg.mpr (lt_of_not_le h)), neg_sub]

/-- Three-node layer for the blocked-source scenario: node 0 (source)
and node 1 are adjacent, node 2 (target) is disconnected. -/
def exNodesA : ℕ → NodeStatic
  | 0 => ⟨0, 0, 7, 7, 3, 3, [1]⟩
  | 1 => ⟨8, 0, 15, 7, 9, 3, [0]⟩
  | 2 => ⟨48, 0, 55, 7, 50, 3, []⟩
  | _ => ⟨0, 0, 0, 0, 0, 0, []⟩

/-- Three-node chain layer for the Dijkstra scenario: 0 - 1 - 2. -/
def exNodesD : ℕ → NodeStatic
  | 0 => ⟨0, 0, 7, 7, 3, 3, [1]⟩
  | 1 => ⟨8, 0, 15, 7, 9, 3, [0, 2]⟩
  | 2 => ⟨48, 0, 55, 7, 50, 3, [1]⟩
  | _ => ⟨0, 0, 0, 0, 0, 0, []⟩

/-- Edge-transition points of the example layers: the shared edge of
nodes 0 and 1 is crossed at x = 60, the shared edge of nodes 1 and 2
at x = 80. -/
def exEtp : ℕ → ℕ → float3 → float3
  | 0, 1, _ => ⟨60, 0, 0⟩
  | 1, 0, _ => ⟨60, 0, 0⟩
  | 1, 2, _ => ⟨80, 0, 0⟩
  | 2, 1, _ => ⟨80, 0, 0⟩
  | _, _, _ => ⟨0, 0, 0⟩

/-- Move costs of the blocked-source scenario: the source node is
impassable, nodes 1 and 2 cost 1. -/
def exMoveA : ℕ → Option ℚ
  | 1 => some 1
  | 2 => some 1
  | _ => none

/-- Move costs of the Dijkstra scenario: nodes 0, 1, 2 cost 1. -/
def exMoveD : ℕ → Option ℚ
  | 0 => some 1
  | 1 => some 1
  | 2 => some 1
  | _ => none

/-- Epoch-fresh node scratch. -/
def freshScratch : NodeScratch := ⟨0, 0, none, some 0, some 0, some 0, some 0⟩

def exEnvA : SearchEnv :=
  { nodes := exNodesA, etp := exEtp, d := distX,
    searchType := SearchType.PATH_SEARCH_ASTAR,
    searchRect := ⟨0, 0, 1000, 1000⟩ }

def exEnvD : SearchEnv :=
  { nodes := exNodesD, etp := exEtp, d := distX,
    searchType := SearchType.PATH_SEARCH_DIJKSTRA,
    searchRect := ⟨0, 0, 1000, 1000⟩ }

/-- Search state as Initialize leaves it for the blocked-source
scenario: source point at the origin, target at x = 100. -/
def exStateA : PathSearchState :=
  { moveCost := exMoveA, scratch := fun _ => freshScratch,
    openList := [], srcNode := 0, tgtNode := 2, curNode := none, nxtNode := none,
    minNode := 0, srcPoint := ⟨0, 0, 0⟩, tgtPoint := ⟨100, 0, 0⟩,
    curPoint := ⟨0, 0, 0⟩, nxtPoint := ⟨100, 0, 0⟩,
    searchState := 0, searchMagic := 0, hCostMult := 0,
    haveFullPath := false, havePartPath := false, pops := [], reopenedNodes := [] }

/-- Search state as Initialize leaves it for the Dijkstra scenario. -/
def exStateD : PathSearchState :=
  { moveCost := exMoveD, scratch := fun _ => freshScratch,
    openList := [], srcNode := 0, tgtNode := 2, curNode := none, nxtNode := none,
    minNode := 0, srcPoint := ⟨0, 0, 0⟩, tgtPoint := ⟨100, 0, 0⟩,
    curPoint := ⟨0, 0, 0⟩, nxtPoint := ⟨100, 0, 0⟩,
    searchState := 0, searchMagic := 0, hCostMult := 0,
    haveFullPath := false, havePartPath := false, pops := [], reopenedNodes := [] }

/-! ## Claim C3 -/

/-- Claim C3: for every epoch-fresh input, the move cost of the source
node after Execute equals its value before Execute (the blocked-source
escape hatch restores the temporary zero), and every node stamped
during the search carries a finite stored G, so the G accumulated along
the emitted path contains no infinite term. -/
theorem C3_blocked_source_restore (env : SearchEnv) (fuel so mg : ℕ)
    (st0 : PathSearchState)
    (hfresh : ∀ n, (st0.scratch n).searchState < so) :
    (Execute env fuel so mg st0).2.moveCost st0.srcNode
      = st0.moveCost st0.srcNode ∧
    (∀ n, so ≤ ((Execute env fuel so mg st0).2.scratch n).searchState →
      ((Execute env fuel so mg st0).2.scratch n).gCost ≠ none) := by
  obtain ⟨hscr, hmov, _, _⟩ := Execute_master env fuel so mg st0 hfresh
  refine ⟨hmov, ?_⟩
  intro n hn
  rcases hscr n with h | h
  · rw [h] at hn
    exact absurd hn (not_le.mpr (hfresh n))
  · exact h.2.2.1

/-- Witness for C3: in the blocked-source scenario the source move
cost is infinite again after Execute, and the stamped node 1 holds a
finite G. -/
theorem C3_blocked_source_restore_witness :
    (Execute exEnvA 5 2 0 exStateA).2.moveCost 0 = exStateA.moveCost 0 ∧
    ((Execute exEnvA 5 2 0 exStateA).2.scratch 1).gCost ≠ none :=
  ⟨(C3_blocked_source_restore exEnvA 5 2 0 exStateA (fun _ => show (0:ℕ) < 2 by norm_num)).1,
   (C3_blocked_source_restore exEnvA 5 2 0 exStateA (fun _ => show (0:ℕ) < 2 by norm_num)).2
     1 (by decide)⟩

/-! ## Claim C8 -/

/-- Claim C8: every node stamped by UpdateNode during an epoch-fresh
Execute satisfies F equal to G plus H times hCostMult (with the stored
costs), and hCostMult is 1 for A-star and 0 for Dijkstra; nodes the
driver never touches keep their scratch unchanged, so no operation
stores an F inconsistent with the stored G and H. -/
theorem C8_f_cost_consistency (env : SearchEnv) (fuel so mg : ℕ)
    (st0 : PathSearchState)
    (hfresh : ∀ n, (st0.scratch n).searchState < so) :
    (∀ n, (Execute env fuel so mg st0).2.scratch n = st0.scratch n ∨
      ((Execute env fuel so mg st0).2.scratch n).fCost =
        addC ((Execute env fuel so mg st0).2.scratch n).gCost
          (mulC ((Execute env fuel so mg st0).2.scratch n).hCost
            (some ((Execute env fuel so mg st0).2.hCostMult)))) ∧
    (st0.srcNode ≠ st0.tgtNode →
      (Execute env fuel so mg st0).2.hCostMult =
        (match env.searchType with
         | SearchType.PATH_SEARCH_ASTAR => (1 : ℚ)
         | SearchType.PATH_SEARCH_DIJKSTRA => 0)) := by
  obtain ⟨hscr, _, hmult, _⟩ := Execute_master env fuel so mg st0 hfresh
  refine ⟨?_, hmult⟩
  intro n
  rcases hscr n with h | h
  · exact Or.inl h
  · exact Or.inr h.2.1

/-- Witness for C8 at the blocked-source scenario: node 1 is stamped
with F5 equal to G plus H times 1. -/
theorem C8_f_cost_consistency_witness :
    (((Execute exEnvA 5 2 0 exStateA).2.scratch 1).fCost =
      addC ((Execute exEnvA 5 2 0 exStateA).2.scratch 1).gCost
        (mulC ((Execute exEnvA 5 2 0 exStateA).2.scratch 1).hCost
          (some ((Execute exEnvA 5 2 0 exStateA).2.hCostMult))) ∨
      (Execute exEnvA 5 2 0 exStateA).2.scratch 1 = exStateA.scratch 1) ∧
    (Execute exEnvA 5 2 0 exStateA).2.hCostMult = 1 :=
  ⟨((C8_f_cost_consistency exEnvA 5 2 0 exStateA (fun _ => show (0:ℕ) < 2 by norm_num)).1 1).symm,
   (C8_f_cost_consistency exEnvA 5 2 0 exStateA (fun _ => show (0:ℕ) < 2 by norm_num)).2
     (by decide)⟩

/-! ## Claim C10 -/

/-- Claim C10: in an epoch-fresh Dijkstra search with distinct source
and target (and minNode initialised to the source as Initialize does),
every stored H cost is zero (every node is either untouched or holds
H equal to zero), the strict minimum-h comparison never fires so
minNode stays at the source node, havePartPath stays false, and
Execute returns true only with a full path. -/
theorem C10_dijkstra_no_partial_result (env : SearchEnv) (fuel so mg : ℕ)
    (st0 : PathSearchState)
    (hfresh : ∀ n, (st0.scratch n).searchState < so)
    (hty : env.searchType = SearchType.PATH_SEARCH_DIJKSTRA)
    (hmin : st0.minNode = st0.srcNode)
    (hne : st0.srcNode ≠ st0.tgtNode) :
    (∀ n, (Execute env fuel so mg st0).2.scratch n = st0.scratch n ∨
      ((Execute env fuel so mg st0).2.scratch n).hCost = some 0) ∧
    (Execute env fuel so mg st0).2.minNode = st0.srcNode ∧
    (Execute env fuel so mg st0).2.havePartPath = false ∧
    ((Execute env fuel so mg st0).1 = true →
      (Execute env fuel so mg st0).2.haveFullPath = true) := by
  obtain ⟨hscr, _, hmult, hdij⟩ := Execute_master env fuel so mg st0 hfresh
  obtain ⟨h1, h2, h3⟩ := hdij hty hne hmin
  refine ⟨?_, h1, h2, h3⟩
  intro n
  rcases hscr n with h | h
  · exact Or.inl h
  · right
    have h0 : (Execute env fuel so mg st0).2.hCostMult = 0 := by
      rw [hmult hne, hty]
    exact h.2.2.2.2 h0

/-- Witness for C10 at the Dijkstra scenario: the search reaches the
target with minNode still the source, no partial flag, and node 1
stamped with H zero. -/
theorem C10_dijkstra_no_partial_result_witness :
    (Execute exEnvD 5 2 0 exStateD).2.minNode = 0 ∧
    (Execute exEnvD 5 2 0 exStateD).2.havePartPath = false ∧
    ((Execute exEnvD 5 2 0 exStateD).2.scratch 1 = exStateD.scratch 1 ∨
      ((Execute exEnvD 5 2 0 exStateD).2.scratch 1).hCost = some 0) :=
  ⟨(C10_dijkstra_no_partial_result exEnvD 5 2 0 exStateD (fun _ => show (0:ℕ) < 2 by norm_num)
      rfl rfl (by decide)).2.1,
   (C10_dijkstra_no_partial_result exEnvD 5 2 0 exStateD (fun _ => show (0:ℕ) < 2 by norm_num)
      rfl rfl (by decide)).2.2.1,
   (C10_dijkstra_no_partial_result exEnvD 5 2 0 exStateD (fun _ => show (0:ℕ) < 2 by norm_num)
      rfl rfl (by decide)).1 1⟩

/-! ## Ghost invariant for reopened nodes: every recorded re-push of a
closed node carries a strictly smaller new G than the stored G. -/

theorem ExpandNeighbor_reopened (env : SearchEnv) (cur : ℕ) (st : PathSearchState)
    (nxt : ℕ)
    (h : ∀ e ∈ st.reopenedNodes, ltC e.2.1 e.2.2 = true) :
    ∀ e ∈ (ExpandNeighbor env cur st nxt).reopenedNodes, ltC e.2.1 e.2.2 = true := by
  unfold ExpandNeighbor UpdateNode
  dsimp only
  split_ifs with h1 h2 h3 h4 <;>
    first
      | exact h
      | (intro e he
         rcases List.mem_append.mp he with he | he
         · exact h e he
         · rw [List.mem_singleton.mp he]
           exact h3)

theorem foldl_ExpandNeighbor_reopened (env : SearchEnv) (cur : ℕ) (l : List ℕ) :
    ∀ st : PathSearchState,
      (∀ e ∈ st.reopenedNodes, ltC e.2.1 e.2.2 = true) →
      ∀ e ∈ (l.foldl (ExpandNeighbor env cur) st).reopenedNodes,
        ltC e.2.1 e.2.2 = true := by
  induction l with
  | nil => intro st h; exact h
  | cons a t ih =>
    intro st h
    rw [List.foldl_cons]
    exact ih _ (ExpandNeighbor_reopened env cur st a h)

theorem IterateExpand_reopened (env : SearchEnv) (cur : ℕ) (st : PathSearchState)
    (h : ∀ e ∈ st.reopenedNodes, ltC e.2.1 e.2.2 = true) :
    ∀ e ∈ (IterateExpand env cur st).reopenedNodes, ltC e.2.1 e.2.2 = true := by
  unfold IterateExpand
  split_ifs with h1 h2 h3 h4 h5 h6 <;>
    first
      | exact h
      | exact foldl_ExpandNeighbor_reopened env cur (env.nodes cur).neighbors _ h

theorem IteratePopped_reopened (env : SearchEnv) (cur : ℕ) (st : PathSearchState)
    (h : ∀ e ∈ st.reopenedNodes, ltC e.2.1 e.2.2 = true) :
    ∀ e ∈ (IteratePopped env cur st).reopenedNodes, ltC e.2.1 e.2.2 = true := by
  unfold IteratePopped
  split_ifs with h1 h2 <;>
    first
      | exact h
      | exact IterateExpand_reopened env cur _ h

theorem Iterate_reopened (env : SearchEnv) (st : PathSearchState)
    (h : ∀ e ∈ st.reopenedNodes, ltC e.2.1 e.2.2 = true) :
    ∀ e ∈ (Iterate env st).reopenedNodes, ltC e.2.1 e.2.2 = true := by
  unfold Iterate
  cases hpop : heapMin (fun n => (st.scratch n).fCost) st.openList with
  | none => exact h
  | some cur => exact IteratePopped_reopened env cur _ h

theorem SearchLoopStep_reopened (env : SearchEnv) (st : PathSearchState)
    (h : ∀ e ∈ st.reopenedNodes, ltC e.2.1 e.2.2 = true) :
    ∀ e ∈ (SearchLoopStep env st).reopenedNodes, ltC e.2.1 e.2.2 = true := by
  unfold SearchLoopStep
  dsimp only
  split_ifs with h1 <;> exact Iterate_reopened env st h

theorem SearchLoop_reopened (env : SearchEnv) :
    ∀ (fuel : ℕ) (st : PathSearchState),
      (∀ e ∈ st.reopenedNodes, ltC e.2.1 e.2.2 = true) →
      ∀ e ∈ (SearchLoop env fuel st).reopenedNodes, ltC e.2.1 e.2.2 = true := by
  intro fuel
  induction fuel with
  | zero => intro st h; exact h
  | succ n ih =>
    intro st h
    unfold SearchLoop
    split_ifs with h1
    · exact h
    · exact ih _ (SearchLoopStep_reopened env st h)

theorem ExecuteSetup_reopened (env : SearchEnv) (st : PathSearchState) :
    (ExecuteSetup env st).reopenedNodes = st.reopenedNodes := by
  unfold ExecuteSetup UpdateNode
  dsimp only
  split_ifs <;> rfl

theorem ExecuteFinish_reopened (env : SearchEnv) (b : Bool) (st : PathSearchState) :
    (ExecuteFinish env b st).2.reopenedNodes = st.reopenedNodes := by
  unfold ExecuteFinish
  dsimp only
  split_ifs <;> rfl

/-! ## Claim C4 -/

/-- Claim C4 as stated is false: the sequence of F costs popped from
the open heap can decrease. In the blocked-source scenario the source
is popped with F 100 (its move cost is temporarily zero, while its
seeded H is the plain source-target distance without the hWeight
factor), after which its neighbour is popped with F 80. The pops ghost
log records each popped node with its f-cost at pop time. -/
theorem C4_pop_order_counterexample :
    (Execute exEnvA 5 2 0 exStateA).2.pops = [(0, some 100), (1, some 80)] ∧
    ltC (some 80) (some 100) = true := by
  constructor
  · decide
  · decide

/-- Claim C4, amended: the non-decreasing pop-order part does not hold
on the code, but the second part does: whenever a node already marked
CLOSED in the current search is pushed back onto the open heap, its
newly computed G is strictly below its stored G. The reopenedNodes
ghost log records exactly the closed re-pushes with the new and the
stored G. -/
theorem C4_closed_reopen_strict_g (env : SearchEnv) (fuel so mg : ℕ)
    (st0 : PathSearchState) :
    ∀ e ∈ (Execute env fuel so mg st0).2.reopenedNodes,
      ltC e.2.1 e.2.2 = true := by
  unfold Execute
  dsimp only
  split_ifs with h1
  · intro e he; simp at he
  · rw [ExecuteFinish_reopened]
    refine SearchLoop_reopened env fuel _ ?_
    rw [ExecuteSetup_reopened]
    intro e he
    simp at he

/-- A four-node world whose inflated heuristic causes a genuine
reopening: node 2 closes with gCost 20 via the source, then node 1
relaxes it to gCost 15. -/
def exNodesR : ℕ → NodeStatic
  | 0 => ⟨0, 0, 7, 7, 3, 3, [1, 2]⟩
  | 1 => ⟨8, 0, 15, 7, 9, 3, [0, 2]⟩
  | 2 => ⟨16, 0, 23, 7, 18, 3, [0, 1, 3]⟩
  | 3 => ⟨24, 0, 31, 7, 27, 3, [2]⟩
  | _ => ⟨0, 0, 0, 0, 0, 0, []⟩

/-- Edge-transition points of the reopening world (x-coordinates on a
line). -/
def exEtpR (a b : ℕ) (_ : float3) : float3 :=
  if (a = 0 ∧ b = 1) ∨ (a = 1 ∧ b = 0) then ⟨10, 0, 0⟩
  else if (a = 0 ∧ b = 2) ∨ (a = 2 ∧ b = 0) then ⟨20, 0, 0⟩
  else if (a = 1 ∧ b = 2) ∨ (a = 2 ∧ b = 1) then ⟨15, 0, 0⟩
  else if (a = 2 ∧ b = 3) ∨ (a = 3 ∧ b = 2) then ⟨90, 0, 0⟩
  else ⟨0, 0, 0⟩

/-- Move costs of the reopening world (node 2 is expensive to cross,
so the target stays behind node 1 in the queue). -/
def exMoveR : ℕ → Option ℚ
  | 0 => some 1
  | 1 => some 1
  | 2 => some 3
  | 3 => some 1
  | _ => none

/-- Search environment of the reopening world. -/
def exEnvR : SearchEnv :=
  { nodes := exNodesR, etp := exEtpR, d := distX,
    searchType := SearchType.PATH_SEARCH_ASTAR,
    searchRect := ⟨0, 0, 1000, 1000⟩ }

/-- Initial state of the reopening world: source 0, target 3. -/
def exStateR : PathSearchState :=
  { moveCost := exMoveR, scratch := fun _ => freshScratch,
    openList := [], srcNode := 0, tgtNode := 3, curNode := none, nxtNode := none,
    minNode := 0, srcPoint := ⟨0, 0, 0⟩, tgtPoint := ⟨100, 0, 0⟩,
    curPoint := ⟨0, 0, 0⟩, nxtPoint := ⟨100, 0, 0⟩,
    searchState := 0, searchMagic := 0, hCostMult := 0,
    haveFullPath := false, havePartPath := false, pops := [], reopenedNodes := [] }

/-- Witness for C4 at the reopening world: node 2 is re-pushed with
new gCost 15 strictly below its old gCost 20. -/
theorem C4_closed_reopen_strict_g_witness :
    ((2 : ℕ), (some (15 : ℚ), some (20 : ℚ)))
        ∈ (Execute exEnvR 10 2 0 exStateR).2.reopenedNodes ∧
    ltC (some (15 : ℚ)) (some (20 : ℚ)) = true := by
  refine ⟨by decide, ?_⟩
  exact C4_closed_reopen_strict_g exEnvR 10 2 0 exStateR
    ((2 : ℕ), (some (15 : ℚ), some (20 : ℚ))) (by decide)

/-! ## Claim C2 -/

/-- Claim C2: when Execute ends with haveFullPath false and
havePartPath true (partial searches enabled), the final state has
tgtNode equal to minNode, tgtPoint.x equal to minNode.xmid times
SQUARE_SIZE, tgtPoint.z equal to minNode.zmid times SQUARE_SIZE, and
Execute returns true. -/
theorem C2_partial_result_adjustment (env : SearchEnv)
    (fuel searchStateOffset searchMagicNumber : ℕ) (st0 : PathSearchState)
    (hfull : (Execute env fuel searchStateOffset searchMagicNumber st0).2.haveFullPath = false)
    (hpart : (Execute env fuel searchStateOffset searchMagicNumber st0).2.havePartPath = true) :
    (Execute env fuel searchStateOffset searchMagicNumber st0).2.tgtNode
      = (Execute env fuel searchStateOffset searchMagicNumber st0).2.minNode ∧
    (Execute env fuel searchStateOffset searchMagicNumber st0).2.tgtPoint.x
      = ((env.nodes (Execute env fuel searchStateOffset
          searchMagicNumber st0).2.minNode).xmid : ℚ) * SQUARE_SIZE ∧
    (Execute env fuel searchStateOffset searchMagicNumber st0).2.tgtPoint.z
      = ((env.nodes (Execute env fuel searchStateOffset
          searchMagicNumber st0).2.minNode).zmid : ℚ) * SQUARE_SIZE ∧
    (Execute env fuel searchStateOffset searchMagicNumber st0).1 = true := by
  revert hfull hpart
  unfold Execute ExecuteFinish
  dsimp only
  split_ifs with h1 h2 h3 <;> (intro hfull hpart; simp_all)

/-- Witness for C2: the blocked-source scenario ends with a partial
path only, so the target is snapped to the midpoint of minNode and
Execute returns true. -/
theorem C2_partial_result_adjustment_witness :
    (Execute exEnvA 5 2 0 exStateA).2.haveFullPath = false ∧
    ((Execute exEnvA 5 2 0 exStateA).2.tgtNode
        = (Execute exEnvA 5 2 0 exStateA).2.minNode ∧
      (Execute exEnvA 5 2 0 exStateA).2.tgtPoint.x
        = ((exEnvA.nodes (Execute exEnvA 5 2 0 exStateA).2.minNode).xmid : ℚ)
          * SQUARE_SIZE ∧
      (Execute exEnvA 5 2 0 exStateA).2.tgtPoint.z
        = ((exEnvA.nodes (Execute exEnvA 5 2 0 exStateA).2.minNode).zmid : ℚ)
          * SQUARE_SIZE ∧
      (Execute exEnvA 5 2 0 exStateA).1 = true) :=
  ⟨by decide,
    C2_partial_result_adjustment exEnvA 5 2 0 exStateA (by decide) (by decide)⟩

/-! ## Claim C5 -/

/-- Claim C5 as stated is false in its H component: the cost stored for
an expanded neighbour is the computed H times hCostMult, not the
computed H itself. In the Dijkstra scenario node 1 is expanded with
hDist 40 and n different from the target, so the claimed stored H
would be hWeight times hDist, namely 80, but the stored H is 0. The
node was genuinely expanded (its scratch changed from the fresh
value). -/
theorem C5_stored_h_counterexample :
    ((Execute exEnvD 6 2 0 exStateD).2.scratch 1).hCost = some 0 ∧
    qmul (qmul 2 (distX ⟨60, 0, 0⟩ ⟨100, 0, 0⟩)) (indQ (¬ (1 = 2))) = 80 ∧
    ((Execute exEnvD 6 2 0 exStateD).2.scratch 1).hCost ≠ some 80 ∧
    (Execute exEnvD 6 2 0 exStateD).2.scratch 1 ≠ exStateD.scratch 1 :=
  ⟨by decide, by decide, by decide, by decide⟩

/-- Claim C5, amended: for every neighbour processed by the neighbour
loop of Iterate, either its scratch is left unchanged (the neighbour
was skipped) or the stored costs are exactly
M equal to curNode.M plus curNode.moveCost plus n.moveCost gated by
isTarget, G equal to curNode.G plus curNode.moveCost times
dist(curPoint, nxtPoint) plus n.moveCost times dist(nxtPoint, tgtPoint)
gated by isTarget, and stored H equal to hWeight times
dist(nxtPoint, tgtPoint) gated by not-isTarget, multiplied by
hCostMult (so the claimed formula holds for the stored H only when
hCostMult is 1); the stored F is G plus the stored H contribution, the
back-link is the expanding node and the scratch is stamped open. -/
theorem C5_neighbor_cost_formulas (env : SearchEnv) (cur : ℕ)
    (st : PathSearchState) (nxt : ℕ) :
    (ExpandNeighbor env cur st nxt).scratch nxt = st.scratch nxt ∨
    (ExpandNeighbor env cur st nxt).scratch nxt =
      { searchState := st.searchState ||| NODE_STATE_OPEN,
        magicNumber := (st.scratch nxt).magicNumber,
        prevNode := some cur,
        gCost := addC (addC (st.scratch cur).gCost
            (mulC (st.moveCost cur) (some (env.d st.curPoint (env.etp cur nxt st.curPoint)))))
          (mulC (mulC (st.moveCost nxt) (some (env.d (env.etp cur nxt st.curPoint) st.tgtPoint)))
            (some (indQ (nxt = st.tgtNode)))),
        hCost := mulC (some (qmul (qmul 2 (env.d (env.etp cur nxt st.curPoint) st.tgtPoint))
            (indQ (¬ nxt = st.tgtNode)))) (some st.hCostMult),
        fCost := addC (addC (addC (st.scratch cur).gCost
            (mulC (st.moveCost cur) (some (env.d st.curPoint (env.etp cur nxt st.curPoint)))))
          (mulC (mulC (st.moveCost nxt) (some (env.d (env.etp cur nxt st.curPoint) st.tgtPoint)))
            (some (indQ (nxt = st.tgtNode)))))
          (mulC (some (qmul (qmul 2 (env.d (env.etp cur nxt st.curPoint) st.tgtPoint))
            (indQ (¬ nxt = st.tgtNode)))) (some st.hCostMult)),
        mCost := addC (addC (st.scratch cur).mCost (st.moveCost cur))
          (mulC (st.moveCost nxt) (some (indQ (nxt = st.tgtNode)))) } := by
  unfold ExpandNeighbor UpdateNode
  dsimp only
  split_ifs with h1 h2 h3 h4 <;>
    first
      | (left; rfl)
      | (right; dsimp only; rw [Function.update_same])

/-! ## Claim C6 -/

/-- Claim C6: SharedFinalize returns true iff the squared distance of
the two target points is below SQUARE_SIZE squared; on success the
destination path keeps the source-path length, agrees with the source
path on all interior points, carries the own srcPoint and tgtPoint of
the search as first and last point, has a freshly recomputed bounding
box, and is installed in the cache. The hypothesis reflects the path
invariant that every path holds at least two points. -/
theorem C6_shared_finalize (srcPoint tgtPoint : float3) (cache : PathCache)
    (srcPath dstPath : IPath) (hlen : 2 ≤ srcPath.points.length) :
    ((SharedFinalize srcPoint tgtPoint cache srcPath dstPath).1 = true ↔
      float3.SqDistance srcPath.GetTargetPoint dstPath.GetTargetPoint
        < SQUARE_SIZE * SQUARE_SIZE) ∧
    ((SharedFinalize srcPoint tgtPoint cache srcPath dstPath).1 = true →
      ((SharedFinalize srcPoint tgtPoint cache srcPath dstPath).2.1.points.length
          = srcPath.points.length ∧
        (∀ i, 0 < i → i + 1 < srcPath.points.length →
          (SharedFinalize srcPoint tgtPoint cache srcPath dstPath).2.1.points[i]?
            = srcPath.points[i]?) ∧
        (SharedFinalize srcPoint tgtPoint cache srcPath dstPath).2.1.points[0]?
          = some srcPoint ∧
        (SharedFinalize srcPoint tgtPoint cache srcPath
            dstPath).2.1.points[srcPath.points.length - 1]? = some tgtPoint ∧
        (SharedFinalize srcPoint tgtPoint cache srcPath dstPath).2.1.bboxMins
          = bboxMinsOf (SharedFinalize srcPoint tgtPoint cache srcPath dstPath).2.1.points ∧
        (SharedFinalize srcPoint tgtPoint cache srcPath dstPath).2.1.bboxMaxs
          = bboxMaxsOf (SharedFinalize srcPoint tgtPoint cache srcPath dstPath).2.1.points ∧
        (SharedFinalize srcPoint tgtPoint cache srcPath dstPath).2.1
          ∈ (SharedFinalize srcPoint tgtPoint cache srcPath dstPath).2.2.livePaths)) := by
  unfold SharedFinalize
  by_cases hc : float3.SqDistance srcPath.GetTargetPoint dstPath.GetTargetPoint
      < SQUARE_SIZE * SQUARE_SIZE
  · simp only [hc, if_pos]
    refine ⟨by simp, fun _ => ?_⟩
    simp only [IPath.SetBoundingBox, IPath.SetTargetPoint, IPath.SetSourcePoint,
      IPath.SetPoint, IPath.CopyPoints, List.length_set]
    have h0 : 0 < srcPath.points.length := by omega
    have hlast : srcPath.points.length - 1 < srcPath.points.length := by omega
    refine ⟨trivial, ?_, ?_, ?_, trivial, trivial, by simp [PathCache.AddLivePath]⟩
    · intro i hi hi1
      rw [List.getElem?_set_ne (by omega), List.getElem?_set_ne (by omega)]
    · rw [List.getElem?_set_ne (by omega),
        List.getElem?_set_eq_of_lt _ (by simpa using h0)]
    · rw [List.getElem?_set_eq_of_lt _ (by simpa using hlast)]
  · simp only [hc, if_neg, if_false]
    simp [hc]

/-- Witness instantiating the C6 theorem at a concrete input. -/
theorem C6_shared_finalize_witness :
    (2 ≤ (([⟨0, 0, 0⟩, ⟨1, 0, 1⟩, ⟨2, 0, 2⟩] : List float3)).length) ∧
    ((SharedFinalize ⟨5, 0, 5⟩ ⟨6, 0, 6⟩ ⟨[]⟩
        ⟨1, [⟨0, 0, 0⟩, ⟨1, 0, 1⟩, ⟨2, 0, 2⟩], ⟨0, 0, 0⟩, ⟨0, 0, 0⟩⟩
        ⟨2, [⟨5, 0, 5⟩, ⟨3, 0, 2⟩], ⟨0, 0, 0⟩, ⟨0, 0, 0⟩⟩).1 = true ↔
      float3.SqDistance
        (IPath.GetTargetPoint ⟨1, [⟨0, 0, 0⟩, ⟨1, 0, 1⟩, ⟨2, 0, 2⟩], ⟨0, 0, 0⟩, ⟨0, 0, 0⟩⟩)
        (IPath.GetTargetPoint ⟨2, [⟨5, 0, 5⟩, ⟨3, 0, 2⟩], ⟨0, 0, 0⟩, ⟨0, 0, 0⟩⟩)
        < SQUARE_SIZE * SQUARE_SIZE) :=
  ⟨by decide,
    (C6_shared_finalize ⟨5, 0, 5⟩ ⟨6, 0, 6⟩ ⟨[]⟩
      ⟨1, [⟨0, 0, 0⟩, ⟨1, 0, 1⟩, ⟨2, 0, 2⟩], ⟨0, 0, 0⟩, ⟨0, 0, 0⟩⟩
      ⟨2, [⟨5, 0, 5⟩, ⟨3, 0, 2⟩], ⟨0, 0, 0⟩, ⟨0, 0, 0⟩⟩ (by decide)).1⟩

/-! ## TracePath (PathSearch.cpp line 310) -/

/-- Embedding of the back-walk of TracePath (PathSearch.cpp lines 314
to 347): walk the prevNode links from the target node, compute each
edge-transition point relative to the running previous point, skip
points equal to the previous one, and build the interior waypoint list
front-first (so the result is in source-to-target order). The links
argument is the prevNode scratch left by the search; fuel bounds the
walk. -/
def traceWalk (etp : ℕ → ℕ → float3 → float3) (links : ℕ → Option ℕ) :
    ℕ → ℕ → ℕ → float3 → List float3 → List float3
  | 0, _, _, _, acc => acc
  | fuel + 1, tmpNode, srcNode, prvPoint, acc =>
    match links tmpNode with
    | none => acc
    | some prvNode =>
      if tmpNode = srcNode then acc
      else
        let tmpPoint := etp tmpNode prvNode prvPoint
        let acc2 := if tmpPoint ≠ prvPoint then tmpPoint :: acc else acc
        traceWalk etp links fuel prvNode srcNode tmpPoint acc2

/-- Embedding of QTPFS::PathSearch::TracePath with smoothing enabled
(the prevNode clearing under the ifndef is disabled and the links are
left untouched): the produced waypoint list is the source point, the
interior transition points in source-to-target order, then the target
point. -/
def TracePath (etp : ℕ → ℕ → float3 → float3) (links : ℕ → Option ℕ)
    (fuel : ℕ) (srcNode tgtNode : ℕ) (srcPoint tgtPoint : float3) :
    List float3 :=
  let points :=
    if srcNode ≠ tgtNode then
      traceWalk etp links fuel tgtNode srcNode tgtPoint []
    else []
  srcPoint :: (points ++ [tgtPoint])

theorem traceWalk_chain (etp : ℕ → ℕ → float3 → float3)
    (links : ℕ → Option ℕ) (tgt : float3) :
    ∀ (fuel tmpNode srcNode : ℕ) (prvPoint : float3) (acc : List float3),
      List.Chain' (fun a b => a ≠ b) (acc ++ [tgt]) →
      (acc ++ [tgt]).head? = some prvPoint →
      List.Chain' (fun a b => a ≠ b)
        (traceWalk etp links fuel tmpNode srcNode prvPoint acc ++ [tgt]) := by
  intro fuel
  induction fuel with
  | zero => intro tmpNode srcNode prvPoint acc hch _; exact hch
  | succ n ih =>
    intro tmpNode srcNode prvPoint acc hch hhd
    unfold traceWalk
    cases hl : links tmpNode with
    | none => exact hch
    | some prvNode =>
      split_ifs with h1
      · exact hch
      · dsimp only
        by_cases hp : etp tmpNode prvNode prvPoint ≠ prvPoint
        · rw [if_pos hp]
          refine ih prvNode srcNode _ _ ?_ ?_
          · rw [List.cons_append]
            cases hacc : acc ++ [tgt] with
            | nil => simp at hacc
            | cons a l =>
              refine List.Chain'.cons ?_ (hacc ▸ hch)
              have : a = prvPoint := by
                rw [hacc] at hhd
                simpa using hhd
              rw [this]
              exact hp
          · rw [List.cons_append]
            rfl
        · rw [if_neg hp]
          rw [not_not] at hp
          exact ih prvNode srcNode _ _ hch (by rw [hp]; exact hhd)

/-! ## Claim C7 -/

/-- Claim C7 as stated is false: the source point itself can coincide
with the first interior transition point, and nothing skips that pair.
Here the path from node 0 (source) to node 1 (target) has one
transition point which lies exactly at the source point, because the
source point sits on the shared edge of the two nodes; the emitted
path repeats the source point, and the duplicate pair is not the
final transition-target pair the claim exempts. -/
theorem C7_adjacent_waypoints_counterexample :
    TracePath
        (fun a b _ => if a = 1 ∧ b = 0 then ⟨0, 0, 0⟩ else ⟨50, 0, 0⟩)
        (fun n => if n = 1 then some 0 else none)
        10 0 1 ⟨0, 0, 0⟩ ⟨100, 0, 0⟩
      = [⟨0, 0, 0⟩, ⟨0, 0, 0⟩, ⟨100, 0, 0⟩] ∧
    ¬ List.Chain' (fun a b => a ≠ b)
        (TracePath
          (fun a b _ => if a = 1 ∧ b = 0 then ⟨0, 0, 0⟩ else ⟨50, 0, 0⟩)
          (fun n => if n = 1 then some 0 else none)
          10 0 1 ⟨0, 0, 0⟩ ⟨100, 0, 0⟩).dropLast := by
  have h : TracePath
      (fun a b _ => if a = 1 ∧ b = 0 then ⟨0, 0, 0⟩ else ⟨50, 0, 0⟩)
      (fun n => if n = 1 then some 0 else none)
      10 0 1 ⟨0, 0, 0⟩ ⟨100, 0, 0⟩
      = [⟨0, 0, 0⟩, ⟨0, 0, 0⟩, ⟨100, 0, 0⟩] := by decide
  refine ⟨h, ?_⟩
  rw [h]
  simp [List.dropLast, List.chain'_cons]

/-- Claim C7, amended: TracePath emits the source point first, the
interior transition points in source-to-target order and the target
point last; every transition point equal to its running predecessor is
skipped, so all adjacent waypoints differ except that the source point
may coincide with the first interior transition point (the
target-versus-last-transition pair always differs since a transition
point equal to the previous one is dropped); the waypoint count is the
number of emitted interior transitions plus two. -/
theorem C7_trace_path_waypoints (etp : ℕ → ℕ → float3 → float3)
    (links : ℕ → Option ℕ) (fuel : ℕ) (srcNode tgtNode : ℕ)
    (srcPoint tgtPoint : float3) :
    ∃ pts : List float3,
      TracePath etp links fuel srcNode tgtNode srcPoint tgtPoint
        = srcPoint :: (pts ++ [tgtPoint]) ∧
      List.Chain' (fun a b => a ≠ b) (pts ++ [tgtPoint]) ∧
      (TracePath etp links fuel srcNode tgtNode srcPoint tgtPoint).length
        = pts.length + 2 ∧
      (TracePath etp links fuel srcNode tgtNode srcPoint tgtPoint).head?
        = some srcPoint ∧
      (TracePath etp links fuel srcNode tgtNode srcPoint tgtPoint).getLast?
        = some tgtPoint := by
  refine ⟨if srcNode ≠ tgtNode then
      traceWalk etp links fuel tgtNode srcNode tgtPoint []
    else [], rfl, ?_, ?_, rfl, ?_⟩
  · split_ifs with h1
    · exact traceWalk_chain etp links tgtPoint fuel tgtNode srcNode tgtPoint []
        (by simp) rfl
    · simp
  · show (srcPoint :: (_ ++ [tgtPoint])).length = _
    simp
  · show (srcPoint :: (_ ++ [tgtPoint])).getLast? = some tgtPoint
    rw [List.getLast?_cons]
    simp [List.getLast?_concat]

/-! ## SmoothPath (PathSearch.cpp line 367) -/

/-- Modelled from the spec: float3 componentwise difference
(float3 operator-, not under src/). -/
def float3.sub (a b : float3) : float3 :=
  ⟨qsub a.x b.x, qsub a.y b.y, qsub a.z b.z⟩

/-- Modelled from the spec: float3 dot product (float3::dot, not under
src/). -/
def float3.dot (a b : float3) : ℚ :=
  qadd (qadd (qmul a.x b.x) (qmul a.y b.y)) (qmul a.z b.z)

/-- Modelled from the spec: the four edge bits of an INode neighbour
relation mask (REL_NGB_EDGE_T/B/L/R, not under src/); the concrete bit
positions are not fixed by the sources under src/, so canonical
distinct bits are chosen. -/
def REL_NGB_EDGE_T : ℕ := 1

/-- Modelled from the spec: see REL_NGB_EDGE_T. -/
def REL_NGB_EDGE_B : ℕ := 2

/-- Modelled from the spec: see REL_NGB_EDGE_T. -/
def REL_NGB_EDGE_L : ℕ := 4

/-- Modelled from the spec: see REL_NGB_EDGE_T. -/
def REL_NGB_EDGE_R : ℕ := 8

/-- Environment for SmoothPath: node geometry, the prevNode links left
by the search, the INode neighbour-relation mask (GetNeighborRelation,
not under src/, modelled from the spec) and float3::SafeNormalize (not
under src/, modelled from the spec as an abstract normalisation
function). -/
structure SmoothEnv where
  nodes : ℕ → NodeStatic
  links : ℕ → Option ℕ
  ngbRel : ℕ → ℕ → ℕ
  nrm : float3 → float3

/-- IPath::GetPoint on a bare waypoint list. -/
def getP (l : List float3) (i : ℕ) : float3 := l.getD i ⟨0, 0, 0⟩

/-- The constant 0.995f of line 409, embedded as an exact rational. -/
def dotThreshold : ℚ := mkRat 995 1000

/-- The constant 0.001f of lines 442 and 443, embedded as an exact
rational. -/
def smoothEps : ℚ := mkRat 1 1000

/-- Observation record for one smoothing iteration: the decremented
point index, the segment dot product and the middle point, all read at
the start of the iteration (lines 390 to 406). -/
structure SmoothRec where
  ni : ℕ
  dotv : ℚ
  p1 : float3
  deriving DecidableEq, Repr

/-- Lines 390 to 406: the dot product of the normalised segments p1-p0
and p2-p1 of the waypoint triple at the (already decremented) index
ni. -/
def smoothDot (env : SmoothEnv) (ni : ℕ) (path : List float3) : ℚ :=
  let p0 := getP path ni
  let p1 := getP path (ni - 1)
  let p2 := getP path (ni - 2)
  float3.dot (env.nrm (float3.sub p1 p0)) (env.nrm (float3.sub p2 p1))

/-- Lines 414 and 415: whether p1 lies on a horizontal edge. -/
def hEdgeOf (env : SmoothEnv) (n0 n1 : ℕ) : Bool :=
  ((env.ngbRel n0 n1 &&& REL_NGB_EDGE_T) != 0) ||
  ((env.ngbRel n0 n1 &&& REL_NGB_EDGE_B) != 0)

/-- Lines 414 and 415: whether p1 lies on a vertical edge. -/
def vEdgeOf (env : SmoothEnv) (n0 n1 : ℕ) : Bool :=
  ((env.ngbRel n0 n1 &&& REL_NGB_EDGE_L) != 0) ||
  ((env.ngbRel n0 n1 &&& REL_NGB_EDGE_R) != 0)

/-- Lines 432 to 456: the candidate intersection point pi between the
ray p2-p0 and the shared edge (a zero vector where no edge bit fills a
component in). -/
def smoothPi (env : SmoothEnv) (n0 n1 ni : ℕ) (path : List float3) : float3 :=
  let p0 := getP path ni
  let p1 := getP path (ni - 1)
  let p2 := getP path (ni - 2)
  let p2p0 := env.nrm (float3.sub p2 p0)
  let dfx := if 0 < p2p0.x then ((env.nodes n0).xmax : ℚ) * SQUARE_SIZE - p0.x
             else ((env.nodes n0).xmin : ℚ) * SQUARE_SIZE - p0.x
  let dfz := if 0 < p2p0.z then ((env.nodes n0).zmax : ℚ) * SQUARE_SIZE - p0.z
             else ((env.nodes n0).zmin : ℚ) * SQUARE_SIZE - p0.z
  let dx := if smoothEps < |p2p0.x| then p2p0.x else smoothEps
  let dz := if smoothEps < |p2p0.z| then p2p0.z else smoothEps
  let tx := dfx / dx
  let tz := dfz / dz
  let pix0 := if hEdgeOf env n0 n1 then p0.x + p2p0.x * tz else 0
  let piz0 := if hEdgeOf env n0 n1 then p1.z else 0
  let pix := if vEdgeOf env n0 n1 then p1.x else pix0
  let piz := if vEdgeOf env n0 n1 then p0.z + p2p0.z * tx else piz0
  ⟨pix, 0, piz⟩

/-- Lines 420 to 423 and 447 to 459: whether the candidate
intersection point lies inside the x- and z-range shared by the two
nodes. -/
def smoothOk (env : SmoothEnv) (n0 n1 ni : ℕ) (path : List float3) : Bool :=
  let xmin := max (env.nodes n1).xmin (env.nodes n0).xmin
  let zmin := max (env.nodes n1).zmin (env.nodes n0).zmin
  let xmax := min (env.nodes n1).xmax (env.nodes n0).xmax
  let zmax := min (env.nodes n1).zmax (env.nodes n0).zmax
  let p := smoothPi env n0 n1 ni path
  decide (((xmin : ℚ) * SQUARE_SIZE ≤ p.x ∧ p.x ≤ (xmax : ℚ) * SQUARE_SIZE) ∧
          ((zmin : ℚ) * SQUARE_SIZE ≤ p.z ∧ p.z ≤ (zmax : ℚ) * SQUARE_SIZE))

/-- Lines 471 to 481: the first edge end-point e0. -/
def smoothE0 (env : SmoothEnv) (n0 n1 ni : ℕ) (path : List float3) : float3 :=
  let p1 := getP path (ni - 1)
  let a := if hEdgeOf env n0 n1 then
      { p1 with x := ((max (env.nodes n1).xmin (env.nodes n0).xmin : ℕ) : ℚ) * SQUARE_SIZE }
    else p1
  if vEdgeOf env n0 n1 then
    { a with z := ((max (env.nodes n1).zmin (env.nodes n0).zmin : ℕ) : ℚ) * SQUARE_SIZE }
  else a

/-- Lines 471 to 481: the second edge end-point e1. -/
def smoothE1 (env : SmoothEnv) (n0 n1 ni : ℕ) (path : List float3) : float3 :=
  let p1 := getP path (ni - 1)
  let a := if hEdgeOf env n0 n1 then
      { p1 with x := ((min (env.nodes n1).xmax (env.nodes n0).xmax : ℕ) : ℚ) * SQUARE_SIZE }
    else p1
  if vEdgeOf env n0 n1 then
    { a with z := ((min (env.nodes n1).zmax (env.nodes n0).zmax : ℕ) : ℚ) * SQUARE_SIZE }
  else a

/-- Lines 488 to 490: the segment dot after substituting e0 for p1. -/
def smoothDot0 (env : SmoothEnv) (n0 n1 ni : ℕ) (path : List float3) : ℚ :=
  let p0 := getP path ni
  let p2 := getP path (ni - 2)
  let e0 := smoothE0 env n0 n1 ni path
  float3.dot (env.nrm (float3.sub e0 p0)) (env.nrm (float3.sub p2 e0))

/-- Lines 492 to 494: the segment dot after substituting e1 for p1. -/
def smoothDot1 (env : SmoothEnv) (n0 n1 ni : ℕ) (path : List float3) : ℚ :=
  let p0 := getP path ni
  let p2 := getP path (ni - 2)
  let e1 := smoothE1 env n0 n1 ni path
  float3.dot (env.nrm (float3.sub e1 p0)) (env.nrm (float3.sub p2 e1))

/-- Lines 500 and 501: the replacement for p1 among the edge
end-points (the two guards are mutually exclusive). -/
def smoothEnd (env : SmoothEnv) (n0 n1 ni : ℕ) (path : List float3) : float3 :=
  let p1 := getP path (ni - 1)
  let dot := smoothDot env ni path
  let dot0 := smoothDot0 env n0 n1 ni path
  let dot1 := smoothDot1 env n0 n1 ni path
  let a := if max dot1 dot < dot0 then smoothE0 env n0 n1 ni path else p1
  if max dot0 dot < dot1 then smoothE1 env n0 n1 ni path else a

/-- One iteration of the smoothing loop (lines 389 to 506), acting on
the waypoint triple at the already decremented counter ni: the path is
returned unchanged on the dot-skip (line 409), the
neither-endpoint-improves skip (line 497) and the corner case (line
469 false); otherwise the point at ni - 1 is replaced by the
intersection point (line 464) or the better edge end-point (line 505).
Alongside, the iteration's observation record is returned. -/
def SmoothStep (env : SmoothEnv) (n0 n1 ni : ℕ) (path : List float3) :
    List float3 × SmoothRec :=
  let dot := smoothDot env ni path
  (if dotThreshold ≤ dot then path
   else if smoothOk env n0 n1 ni path then
     path.set (ni - 1) (smoothPi env n0 n1 ni path)
   else if (hEdgeOf env n0 n1) != (vEdgeOf env n0 n1) then
     if max (smoothDot0 env n0 n1 ni path) (smoothDot1 env n0 n1 ni path) < dot
     then path
     else path.set (ni - 1) (smoothEnd env n0 n1 ni path)
   else path,
   ⟨ni, dot, getP path (ni - 1)⟩)

/-- The smoothing loop of SmoothPath (lines 371 to 507): walk the
prevNode links from the target node, processing one waypoint triple
per node transition; fuel bounds the walk and a missing link stops it
(the source asserts the chain reaches srcNode). The SetPrevNode(NULL)
clearing of line 382 is not modelled: each link is read before it
would be cleared, so the produced waypoints are unaffected. Returns
the smoothed list and the iteration records. -/
def SmoothWalk (env : SmoothEnv) :
    ℕ → ℕ → ℕ → ℕ → List float3 → List float3 × List SmoothRec
  | 0, _, _, _, path => (path, [])
  | fuel + 1, n1, srcNode, ni, path =>
    if n1 = srcNode then (path, [])
    else
      match env.links n1 with
      | none => (path, [])
      | some n2 =>
        let s := SmoothStep env n1 n2 (ni - 1) path
        let r := SmoothWalk env fuel n2 srcNode (ni - 1) s.1
        (r.1, s.2 :: r.2)

/-- Embedding of QTPFS::PathSearch::SmoothPath (lines 367 to 508):
paths with exactly two points are returned unchanged; otherwise the
smoothing walk runs from the target node with the point counter
starting at the waypoint count. -/
def SmoothPath (env : SmoothEnv) (fuel srcNode tgtNode : ℕ)
    (path : List float3) : List float3 × List SmoothRec :=
  if path.length = 2 then (path, [])
  else SmoothWalk env fuel tgtNode srcNode path.length path

/-- The segment-alignment dot product of the waypoint triple around
index k, oriented as in the smoothing loop (p0 at k + 1, p1 at k, p2
at k - 1). -/
def dotTriple (nrm : float3 → float3) (path : List float3) (k : ℕ) : ℚ :=
  float3.dot (nrm (float3.sub (getP path k) (getP path (k + 1))))
             (nrm (float3.sub (getP path (k - 1)) (getP path k)))

theorem getP_set_ne (l : List float3) (i j : ℕ) (v : float3) (h : i ≠ j) :
    getP (l.set i v) j = getP l j := by
  unfold getP
  rw [List.getD_eq_getElem?_getD, List.getD_eq_getElem?_getD, List.getElem?_set_ne h]

theorem SmoothStep_fst (env : SmoothEnv) (n0 n1 ni : ℕ) (path : List float3) :
    (SmoothStep env n0 n1 ni path).1 = path ∨
    ∃ v, (SmoothStep env n0 n1 ni path).1 = path.set (ni - 1) v := by
  unfold SmoothStep
  dsimp only
  split_ifs <;> first | (left; rfl) | (right; exact ⟨_, rfl⟩)

theorem SmoothStep_skip (env : SmoothEnv) (n0 n1 ni : ℕ) (path : List float3)
    (h : dotThreshold ≤ smoothDot env ni path) :
    (SmoothStep env n0 n1 ni path).1 = path := by
  unfold SmoothStep
  dsimp only
  rw [if_pos h]

theorem getP_SmoothStep_ne (env : SmoothEnv) (n0 n1 ni : ℕ) (path : List float3)
    (j : ℕ) (h : ni - 1 ≠ j) :
    getP (SmoothStep env n0 n1 ni path).1 j = getP path j := by
  rcases SmoothStep_fst env n0 n1 ni path with h1 | ⟨v, h1⟩
  · rw [h1]
  · rw [h1, getP_set_ne path (ni - 1) j v h]

theorem SmoothWalk_preserves (env : SmoothEnv) :
    ∀ (fuel n1 srcNode ni : ℕ) (path : List float3) (j : ℕ),
      ni ≤ j + 1 → 1 ≤ j →
      getP (SmoothWalk env fuel n1 srcNode ni path).1 j = getP path j := by
  intro fuel
  induction fuel with
  | zero => intro n1 srcNode ni path j _ _; rfl
  | succ n ih =>
    intro n1 srcNode ni path j h1 h2
    unfold SmoothWalk
    split_ifs with hs
    · rfl
    · cases hl : env.links n1 with
      | none => rfl
      | some n2 =>
        dsimp only
        exact (ih n2 srcNode (ni - 1) _ j (by omega) h2).trans
          (getP_SmoothStep_ne env n1 n2 (ni - 1) path j (by omega))

theorem SmoothWalk_skip (env : SmoothEnv) :
    ∀ (fuel n1 srcNode ni : ℕ) (path : List float3) (r : SmoothRec),
      r ∈ (SmoothWalk env fuel n1 srcNode ni path).2 →
      dotThreshold ≤ r.dotv → 2 ≤ r.ni →
      getP (SmoothWalk env fuel n1 srcNode ni path).1 (r.ni - 1) = r.p1 := by
  intro fuel
  induction fuel with
  | zero => intro n1 srcNode ni path r hmem _ _; simp [SmoothWalk] at hmem
  | succ n ih =>
    intro n1 srcNode ni path r hmem hdot hni
    unfold SmoothWalk at hmem ⊢
    split_ifs at hmem ⊢ with hs
    · simp at hmem
    · cases hl : env.links n1 with
      | none => rw [hl] at hmem; simp at hmem
      | some n2 =>
        rw [hl] at hmem
        dsimp only at hmem ⊢
        rcases List.mem_cons.mp hmem with heq | htl
        · subst heq
          have hdot' : dotThreshold ≤ smoothDot env (ni - 1) path := hdot
          have hni' : 2 ≤ ni - 1 := hni
          show getP (SmoothWalk env n n2 srcNode (ni - 1)
              (SmoothStep env n1 n2 (ni - 1) path).1).1 (ni - 1 - 1)
            = getP path (ni - 1 - 1)
          rw [SmoothStep_skip env n1 n2 (ni - 1) path hdot']
          exact SmoothWalk_preserves env n n2 srcNode (ni - 1) path (ni - 1 - 1)
            (by omega) (by omega)
        · exact ih n2 srcNode (ni - 1) _ r htl hdot hni

/-! ## Claim C9 -/

/-- A concrete smoothing world for instantiating the C9 theorem: two
nodes 0 (source) and 1 (target) with a single prevNode link, identity
normalisation and a collinear three-point path, so the one processed
triple has dot 1 and is skipped. -/
def exSmoothEnv : SmoothEnv :=
  { nodes := fun _ => ⟨0, 0, 4, 4, 2, 2, []⟩,
    links := fun n => if n = 1 then some 0 else none,
    ngbRel := fun _ _ => REL_NGB_EDGE_T,
    nrm := fun v => v }

/-- The collinear three-point path of the C9 instantiation. -/
def exSmoothPath : List float3 := [⟨0, 0, 0⟩, ⟨0, 0, 1⟩, ⟨0, 0, 2⟩]

/-- Claim C9: in SmoothPath, every processed waypoint triple whose
normalised-segment dot product is at least 0.995 leaves its middle
point unchanged (it still holds the recorded middle point in the final
output; the point index of a processed triple is at least 2, as the
source's loop structure guarantees); and for every triple whose three
points are unchanged after SmoothPath completes, the new
segment-alignment dot product is at least the original one. -/
theorem C9_smoothing_skip_and_monotone (env : SmoothEnv)
    (fuel srcNode tgtNode : ℕ) (path : List float3) :
    (∀ r ∈ (SmoothPath env fuel srcNode tgtNode path).2,
        dotThreshold ≤ r.dotv → 2 ≤ r.ni →
        getP (SmoothPath env fuel srcNode tgtNode path).1 (r.ni - 1) = r.p1) ∧
    (∀ k : ℕ,
        getP (SmoothPath env fuel srcNode tgtNode path).1 (k + 1)
          = getP path (k + 1) →
        getP (SmoothPath env fuel srcNode tgtNode path).1 k = getP path k →
        getP (SmoothPath env fuel srcNode tgtNode path).1 (k - 1)
          = getP path (k - 1) →
        dotTriple env.nrm path k
          ≤ dotTriple env.nrm (SmoothPath env fuel srcNode tgtNode path).1 k) := by
  constructor
  · intro r hmem hdot hni
    unfold SmoothPath at hmem ⊢
    split_ifs at hmem ⊢ with h2
    · simp at hmem
    · exact SmoothWalk_skip env fuel tgtNode srcNode path.length path r hmem hdot hni
  · intro k h0 h1 h2
    unfold dotTriple
    rw [h0, h1, h2]

/-- Witness for C9 at the concrete collinear world: the processed
record is (2, 1, the middle point), its dot 1 clears the threshold, so
the middle point survives; and the intact triple at index 1 keeps its
dot product. -/
theorem C9_smoothing_skip_and_monotone_witness :
    getP (SmoothPath exSmoothEnv 5 0 1 exSmoothPath).1 1 = ⟨0, 0, 1⟩ ∧
    dotTriple exSmoothEnv.nrm exSmoothPath 1
      ≤ dotTriple exSmoothEnv.nrm (SmoothPath exSmoothEnv 5 0 1 exSmoothPath).1 1 := by
  refine ⟨?_, ?_⟩
  · exact (C9_smoothing_skip_and_monotone exSmoothEnv 5 0 1 exSmoothPath).1
      ⟨2, 1, ⟨0, 0, 1⟩⟩ (by decide) (by decide) (by decide)
  · exact (C9_smoothing_skip_and_monotone exSmoothEnv 5 0 1 exSmoothPath).2
      1 (by decide) (by decide) (by decide)

/-! ## Claim C1 -/

/-- Claim C1 as stated is false: GetHash is computed in 32-bit
unsigned arithmetic, so two distinct movement-class indices k whose
term k * N * N differs by a multiple of 2 to the 32 collide even
though all node numbers are below N. Concretely, with N = 2 to the 17
the triples (0, 0, 0) and (0, 0, 1) hash identically, since N * N is
2 to the 34. -/
theorem C1_hash_collision_counterexample :
    GetHash 0 0 (2 ^ 17) 0 = GetHash 0 0 (2 ^ 17) 1 ∧
    (0 : ℕ) ≠ 1 ∧ (0 : ℕ) < 2 ^ 17 := by
  refine ⟨?_, by decide, by decide⟩
  show (0 + 0 * 2 ^ 17 + 0 * 2 ^ 17 * 2 ^ 17) % 2 ^ 32
     = (0 + 0 * 2 ^ 17 + 1 * 2 ^ 17 * 2 ^ 17) % 2 ^ 32
  norm_num

/-- Claim C1, amended: GetHash returns the value
src + tgt * N + k * N * N reduced modulo 2 to the 32 (the intermediate
unsigned-int arithmetic), and the hash is collision-free for triples
whose node numbers are below N, provided in addition that the
unreduced hash value of each triple fits in 32 bits. -/
theorem C1_hash_injective_below_32_bits
    (s1 t1 k1 s2 t2 k2 N : ℕ)
    (hs1 : s1 < N) (ht1 : t1 < N) (hs2 : s2 < N) (ht2 : t2 < N)
    (hb1 : s1 + t1 * N + k1 * N * N < 2 ^ 32)
    (hb2 : s2 + t2 * N + k2 * N * N < 2 ^ 32)
    (heq : GetHash s1 t1 N k1 = GetHash s2 t2 N k2) :
    s1 = s2 ∧ t1 = t2 ∧ k1 = k2 := by
  have hN : 0 < N := lt_of_le_of_lt (Nat.zero_le s1) hs1
  have e : s1 + t1 * N + k1 * N * N = s2 + t2 * N + k2 * N * N := by
    unfold GetHash at heq
    rwa [Nat.mod_eq_of_lt hb1, Nat.mod_eq_of_lt hb2] at heq
  have key : ∀ s t k : ℕ, s < N →
      (s + t * N + k * N * N) % N = s ∧ (s + t * N + k * N * N) / N = t + k * N := by
    intro s t k hs
    have hrw : s + t * N + k * N * N = s + (t + k * N) * N := by ring
    constructor
    · rw [hrw, Nat.add_mul_mod_self_right, Nat.mod_eq_of_lt hs]
    · rw [hrw, Nat.add_mul_div_right _ _ hN, Nat.div_eq_of_lt hs, Nat.zero_add]
  obtain ⟨m1, d1⟩ := key s1 t1 k1 hs1
  obtain ⟨m2, d2⟩ := key s2 t2 k2 hs2
  have es : s1 = s2 := by rw [← m1, ← m2, e]
  have ed : t1 + k1 * N = t2 + k2 * N := by rw [← d1, ← d2, e]
  have et : t1 = t2 := by
    have h1 : (t1 + k1 * N) % N = t1 := by
      rw [Nat.add_mul_mod_self_right, Nat.mod_eq_of_lt ht1]
    have h2 : (t2 + k2 * N) % N = t2 := by
      rw [Nat.add_mul_mod_self_right, Nat.mod_eq_of_lt ht2]
    rw [← h1, ← h2, ed]
  have ek : k1 = k2 := by
    have h1 : (t1 + k1 * N) / N = k1 := by
      rw [Nat.add_mul_div_right _ _ hN, Nat.div_eq_of_lt ht1, Nat.zero_add]
    have h2 : (t2 + k2 * N) / N = k2 := by
      rw [Nat.add_mul_div_right _ _ hN, Nat.div_eq_of_lt ht2, Nat.zero_add]
    rw [← h1, ← h2, ed]
  exact ⟨es, et, ek⟩

/-- Witness instantiating the amended C1 theorem at a concrete input. -/
theorem C1_hash_injective_witness :
    (1 < 3 ∧ GetHash 1 2 3 1 = GetHash 1 2 3 1) ∧ (1 = 1 ∧ 2 = 2 ∧ 1 = 1) :=
  ⟨⟨by decide, rfl⟩,
    C1_hash_injective_below_32_bits 1 2 1 1 2 1 3
      (by decide) (by decide) (by decide) (by decide)
      (by decide) (by decide) rfl⟩

end QTPFS
